import Mathlib

/-!
Shallow embedding of the agent orchestration core of the Step-DeepResearch
repository (src/agent/react_agent.py, src/agent/model_provider.py,
src/agent/tools.py), together with theorems settling the frozen claims
about it.

Conventions of the embedding:
* Python JSON-like values are modelled by the inductive type `Json`
  (JSON numbers are modelled as integers; no claim depends on floats).
* Python `None` for an "Any"-typed slot is `Option.none`.
* Python exceptions are modelled by `PyErr`; a function that can raise
  returns `Except PyErr _` (or a product carrying an `Option PyErr`),
  and mutations made before the raise are kept, as in Python.
* External effects (the OpenAI client, tool implementations, the step
  callback, the wall clock) are oracles over an abstract world type,
  threaded explicitly.  The standard-library functions json.loads and
  json.dumps are likewise oracle parameters: the code under test only
  branches on whether loads fails, and compares dumps output for
  equality.
-/

/-- JSON-like Python value (dict / list / str / int / bool / None). -/
inductive Json where
  | null : Json
  | bool (b : Bool) : Json
  | num (n : Int) : Json
  | str (s : String) : Json
  | arr (elems : List Json) : Json
  | obj (fields : List (String × Json)) : Json
deriving Repr

mutual

def Json.beq : Json → Json → Bool
  | .null, .null => true
  | .bool a, .bool b => a == b
  | .num a, .num b => a == b
  | .str a, .str b => a == b
  | .arr a, .arr b => Json.beqList a b
  | .obj a, .obj b => Json.beqFields a b
  | _, _ => false

def Json.beqList : List Json → List Json → Bool
  | [], [] => true
  | a :: as2, b :: bs2 => Json.beq a b && Json.beqList as2 bs2
  | _, _ => false

def Json.beqFields : List (String × Json) → List (String × Json) → Bool
  | [], [] => true
  | (ka, va) :: as2, (kb, vb) :: bs2 => ka == kb && Json.beq va vb && Json.beqFields as2 bs2
  | _, _ => false

end

mutual

theorem Json.beq_iff : ∀ a b : Json, Json.beq a b = true ↔ a = b
  | .null, b => by cases b <;> simp [Json.beq]
  | .bool a, b => by cases b <;> simp [Json.beq]
  | .num a, b => by cases b <;> simp [Json.beq]
  | .str a, b => by cases b <;> simp [Json.beq]
  | .arr a, b => by
      cases b <;> simp [Json.beq]
      exact Json.beqList_iff a _
  | .obj a, b => by
      cases b <;> simp [Json.beq]
      exact Json.beqFields_iff a _

theorem Json.beqList_iff : ∀ a b : List Json, Json.beqList a b = true ↔ a = b
  | [], b => by cases b <;> simp [Json.beqList]
  | x :: xs, b => by
      cases b with
      | nil => simp [Json.beqList]
      | cons y ys =>
          simp only [Json.beqList, Bool.and_eq_true, List.cons.injEq]
          exact and_congr (Json.beq_iff x y) (Json.beqList_iff xs ys)

theorem Json.beqFields_iff : ∀ a b : List (String × Json), Json.beqFields a b = true ↔ a = b
  | [], b => by cases b <;> simp [Json.beqFields]
  | (k, v) :: xs, b => by
      cases b with
      | nil => simp [Json.beqFields]
      | cons y ys =>
          obtain ⟨k2, v2⟩ := y
          simp only [Json.beqFields, Bool.and_eq_true, List.cons.injEq, Prod.mk.injEq]
          exact and_congr (and_congr beq_iff_eq (Json.beq_iff v v2)) (Json.beqFields_iff xs ys)

end

instance : DecidableEq Json := fun a b =>
  decidable_of_iff (Json.beq a b = true) (Json.beq_iff a b)

/-- Python exception, carrying enough to render str(e). -/
inductive PyErr where
  | keyError (key : String) : PyErr
  | typeError (msg : String) : PyErr
  | attrError (msg : String) : PyErr
  | runtime (msg : String) : PyErr
deriving Repr, DecidableEq

/-- Rendering of str(e) used when the loop records a terminal error. -/
def PyErr.toStr : PyErr → String
  | .keyError k => k
  | .typeError m => m
  | .attrError m => m
  | .runtime m => m

/-- Python truthiness of a JSON-like value. -/
def Json.truthy : Json → Bool
  | .null => false
  | .bool b => b
  | .num n => n != 0
  | .str s => s != ""
  | .arr xs => !xs.isEmpty
  | .obj kvs => !kvs.isEmpty

/-- Python truthiness of an optional value slot. -/
def pyTruthy : Option Json → Bool
  | none => false
  | some j => j.truthy

/-- Python truthiness of an optional string. -/
def strTruthy : Option String → Bool
  | none => false
  | some s => s != ""

/-- Python expression (x or d) for optional strings. -/
def pyOrStr (o : Option String) (d : String) : String :=
  if strTruthy o then o.getD d else d

/-- Python d[k] on a JSON value: KeyError when the key is absent,
TypeError when the value is not a dict. -/
def Json.getKey : Json → String → Except PyErr Json
  | .obj kvs, k =>
      match List.lookup k kvs with
      | some v => .ok v
      | none => .error (.keyError k)
  | _, _ => .error (.typeError "object is not subscriptable")

/-- Python d.get(k, default) on a value the source has guarded to be a
dict (an isinstance check precedes every call site). -/
def Json.dget (j : Json) (k : String) (dflt : Json) : Json :=
  match j with
  | .obj kvs => (List.lookup k kvs).getD dflt
  | _ => dflt

/-- Python d.get(k, default) on an unguarded value: AttributeError when
the value is not a dict. -/
def Json.agetKey (j : Json) (k : String) (dflt : Json) : Except PyErr Json :=
  match j with
  | .obj kvs => .ok ((List.lookup k kvs).getD dflt)
  | _ => .error (.attrError "object has no attribute get")

/-- Index (code points) of the first occurrence of a pattern, as
Python str.index / the in operator find it. -/
def subFind : List Char → List Char → Option Nat
  | hay, pat =>
      if pat.isPrefixOf hay then some 0
      else
        match hay with
        | [] => none
        | _ :: t => (subFind t pat).map (· + 1)

def strFind (hay pat : String) : Option Nat :=
  subFind hay.toList pat.toList

/-- Python (pat in hay) for strings. -/
def containsSub (hay pat : String) : Bool :=
  (strFind hay pat).isSome

/-- Python slice s[a:b] with nonnegative bounds (clamped, empty when
a ≥ b). -/
def pySubstr (s : String) (a b : Nat) : String :=
  String.mk ((s.toList.drop a).take (b - a))

/-- Python slice x[:n] on an arbitrary value: works on strings and
lists, raises TypeError otherwise. -/
def pySliceVal (j : Json) (n : Nat) : Except PyErr Json :=
  match j with
  | .str s => .ok (.str (String.mk (s.toList.take n)))
  | .arr xs => .ok (.arr (xs.take n))
  | _ => .error (.typeError "unhashable type: slice")

/-- Python iteration over a value: lists yield elements, strings yield
characters, dicts yield keys, everything else raises TypeError. -/
def pyIter (j : Json) : Except PyErr (List Json) :=
  match j with
  | .arr xs => .ok xs
  | .str s => .ok (s.toList.map fun c => Json.str (String.mk [c]))
  | .obj kvs => .ok (kvs.map fun p => Json.str p.1)
  | _ => .error (.typeError "object is not iterable")

/-- Python str.strip() with no arguments: remove leading and trailing
whitespace. -/
def pyStrip (s : String) : String :=
  String.mk (((s.toList.dropWhile Char.isWhitespace).reverse.dropWhile Char.isWhitespace).reverse)

/-- Python str.lower (ASCII; the strings compared in the source are
ASCII tool names and arguments). -/
def strLower (s : String) : String :=
  String.mk (s.toList.map Char.toLower)

/-- Python str(x) as interpolated into f-strings by the source (str
values verbatim; a reasonable rendering for the remaining cases, none
of which any claim inspects). -/
def pyStr : Json → String
  | .str s => s
  | .null => "None"
  | .bool true => "True"
  | .bool false => "False"
  | .num n => toString n
  | .arr _ => "[...]"
  | .obj _ => "\x7b...\x7d"

/-!  Data contracts (src/agent/model_provider.py, src/agent/tools.py). -/

/-- ChatMessage (model_provider.py).  tool_calls entries are kept as raw
JSON dicts, as the loop receives them from the provider. -/
structure ChatMessage where
  role : String
  content : Option String := none
  tool_calls : Option (List Json) := none
  tool_call_id : Option Json := none
  name : Option String := none
deriving Repr, DecidableEq

/-- ModelResponse (model_provider.py); usage is a dict of counters. -/
structure ModelResponse where
  message : ChatMessage
  finish_reason : String
  usage : List (String × Int) := []
deriving Repr, DecidableEq

/-- ModelResponse.has_tool_calls: bool(message.tool_calls), so an empty
list counts as absent. -/
def ModelResponse.hasToolCalls (r : ModelResponse) : Bool :=
  match r.message.tool_calls with
  | some (_ :: _) => true
  | _ => false

/-- ToolResult (tools.py). -/
structure ToolResult where
  success : Bool
  output : Option Json
  error : Option String := none
  metadata : List (String × Json) := []
deriving Repr, DecidableEq

/-- Entry of AgentState.tool_calls (react_agent.py run loop); the raw
argument text is always a string at the point it is recorded. -/
structure TrackedCall where
  tool : Json
  args : String
  success : Bool
  timestamp : String
deriving Repr, DecidableEq

/-- Entry of AgentState.evidence (react_agent.py _extract_evidence). -/
structure Evidence where
  source_url : Json
  source_title : Json
  snippet : Json
  retrieved_at : String
deriving Repr, DecidableEq

/-- Entry of AgentState.claims (react_agent.py _extract_evidence). -/
structure ClaimEntry where
  text : Json
  status : Json
  supporting_sources : Json
deriving Repr, DecidableEq

/-- AgentState (react_agent.py); token_usage is flattened into its three
fixed counters. -/
structure AgentState where
  run_id : String
  messages : List ChatMessage
  current_phase : String
  step_count : Nat
  prompt_tokens : Int
  completion_tokens : Int
  total_tokens : Int
  tool_calls : List TrackedCall
  evidence : List Evidence
  claims : List ClaimEntry
  report_drafts : List String
  is_complete : Bool
  error : Option String
deriving Repr, DecidableEq

/-- AgentState.__init__. -/
def AgentState.init (runId : String) : AgentState :=
  { run_id := runId
    messages := []
    current_phase := "planning"
    step_count := 0
    prompt_tokens := 0
    completion_tokens := 0
    total_tokens := 0
    tool_calls := []
    evidence := []
    claims := []
    report_drafts := []
    is_complete := false
    error := none }

/-- AgentState.add_message. -/
def AgentState.addMessage (st : AgentState) (m : ChatMessage) : AgentState :=
  { st with messages := st.messages ++ [m] }

/-- AgentState.update_usage: fold over the usage dict, incrementing only
the three known counters. -/
def AgentState.updateUsage (st : AgentState) (usage : List (String × Int)) : AgentState :=
  usage.foldl
    (fun st kv =>
      if kv.1 = "prompt_tokens" then { st with prompt_tokens := st.prompt_tokens + kv.2 }
      else if kv.1 = "completion_tokens" then { st with completion_tokens := st.completion_tokens + kv.2 }
      else if kv.1 = "total_tokens" then { st with total_tokens := st.total_tokens + kv.2 }
      else st)
    st

/-!  ToolSet (tools.py).  Individual tool implementations are external
collaborators (network and filesystem I/O); they appear as an oracle
over an abstract world type.  The registry logic itself is embedded. -/

/-- ToolSet.__init__: the registry keys, as a function of the ablations
dict (its values are the booleans of AblationConfig; absent keys default
to True, and a missing dict behaves as an empty one via (ablations or
\x7b\x7d)). -/
def toolSetNames (ablations : Option (List (String × Bool))) : List String :=
  let abl := ablations.getD []
  let core := ["web_search", "web_browse", "batch_web_surfer", "file_write", "file_read"]
  let t1 := core ++ (if (List.lookup "enable_todo_state" abl).getD true then ["todo"] else [])
  let t2 := t1 ++ (if (List.lookup "enable_patch_editing" abl).getD true then ["file_edit"] else [])
  t2 ++ (if (List.lookup "enable_reflection" abl).getD true then ["reflect", "cross_validate"] else [])

/-- A ToolSet: the registered names plus an oracle giving each
registered tool implementation; executing a tool may change the outside
world and may raise. -/
structure ToolSetM (σ : Type) where
  tools : List String
  impl : String → List (String × Json) → σ → (Except PyErr ToolResult) × σ

/-- ToolSet.execute: dict lookup of the (JSON-valued) name — unhashable
names raise TypeError from the dict probe, unknown names yield a failed
ToolResult without touching the world, known names dispatch to the tool
with the parsed kwargs. -/
def ToolSetM.execute {σ : Type} (ts : ToolSetM σ) (name : Json) (kwargs : List (String × Json)) (w : σ) :
    (Except PyErr ToolResult) × σ :=
  match name with
  | .arr _ => (.error (.typeError "unhashable type: list"), w)
  | .obj _ => (.error (.typeError "unhashable type: dict"), w)
  | .str s =>
      if s ∈ ts.tools then ts.impl s kwargs w
      else (.ok { success := false, output := none, error := some ("Unknown tool: " ++ s) }, w)
  | other => (.ok { success := false, output := none, error := some ("Unknown tool: " ++ pyStr other) }, w)

/-- Oracle bundle for one run: json.loads / json.dumps, the model
provider, the toolset, the optional step callback and the clock. -/
structure Env (σ : Type) where
  loads : String → Option Json
  dumps : Json → String
  provider : σ → (Except PyErr ModelResponse) × σ
  toolset : ToolSetM σ
  onStep : Option (AgentState → σ → (Option PyErr) × σ)
  utcNow : σ → String

/-!  ReActAgent (src/agent/react_agent.py). -/

/-- ReActAgent._execute_tool_call: read function / name / arguments from
the raw tool-call dict (any miss raises and is NOT caught here), parse
the argument string with json.loads — only a decode failure is caught
and turned into a failed ToolResult — then dispatch to
ToolSet.execute(name, **args), which needs the parsed value to be a
dict whose keys avoid the positional parameter name. -/
def executeToolCall {σ : Type} (loads : String → Option Json) (ts : ToolSetM σ)
    (toolCall : Json) (w : σ) : (Except PyErr ToolResult) × σ :=
  match toolCall.getKey "function" with
  | .error e => (.error e, w)
  | .ok func =>
      match func.getKey "name" with
      | .error e => (.error e, w)
      | .ok toolName =>
          match func.getKey "arguments" with
          | .error e => (.error e, w)
          | .ok argsJson =>
              match argsJson with
              | .str s =>
                  match loads s with
                  | none =>
                      (.ok { success := false, output := none,
                             error := some ("Invalid JSON in tool arguments: " ++ s) }, w)
                  | some parsed =>
                      match parsed with
                      | .obj kvs =>
                          if (List.lookup "tool_name" kvs).isSome then
                            (.error (.typeError "got multiple values for argument tool_name"), w)
                          else ts.execute toolName kvs w
                      | _ => (.error (.typeError "argument after ** must be a mapping"), w)
              | _ => (.error (.typeError "the JSON object must be str, bytes or bytearray"), w)

/-- One evidence entry built from a browsed-content element
(react_agent.py lines 279-284); raises when the element is not a dict
or its content field does not support slicing. -/
def evidenceOfContent (utc : String) (content : Json) : Except PyErr Evidence :=
  match content.agetKey "url" (.str "") with
  | .error e => .error e
  | .ok url =>
      match content.agetKey "title" (.str "") with
      | .error e => .error e
      | .ok title =>
          match content.agetKey "content" (.str "") with
          | .error e => .error e
          | .ok body =>
              match pySliceVal body 500 with
              | .error e => .error e
              | .ok snip => .ok { source_url := url, source_title := title, snippet := snip, retrieved_at := utc }

/-- Inner loop over item.get("browsed_content", []) of the
batch_web_surfer branch. -/
def extractContents (utc : String) : List Json → AgentState → AgentState × Option PyErr
  | [], st => (st, none)
  | c :: rest, st =>
      match evidenceOfContent utc c with
      | .error e => (st, some e)
      | .ok ev => extractContents utc rest { st with evidence := st.evidence ++ [ev] }

/-- Loop over the output items of the web_search / batch_web_surfer
branch (react_agent.py lines 274-292). -/
def extractItems (utc : String) : List Json → AgentState → AgentState × Option PyErr
  | [], st => (st, none)
  | item :: rest, st =>
      match item with
      | .obj kvs =>
          if (List.lookup "browsed_content" kvs).isSome then
            match pyIter ((List.lookup "browsed_content" kvs).getD (.arr [])) with
            | .error e => (st, some e)
            | .ok contents =>
                match extractContents utc contents st with
                | (st2, some e) => (st2, some e)
                | (st2, none) => extractItems utc rest st2
          else if (List.lookup "url" kvs).isSome then
            extractItems utc rest
              { st with evidence := st.evidence ++
                  [{ source_url := Json.dget item "url" (.str "")
                     source_title := Json.dget item "title" (.str "")
                     snippet := Json.dget item "snippet" (.str "")
                     retrieved_at := utc }] }
          else extractItems utc rest st
      | _ => extractItems utc rest st

/-- ReActAgent._extract_evidence: dispatch on the (JSON-valued) tool
name; the cross_validate branch appends a claim entry whenever the
output is a dict, with "" / "uncertain" / 0 defaults for absent
fields. -/
def extractEvidence (utc : String) (toolName : Json) (result : ToolResult) (st : AgentState) :
    AgentState × Option PyErr :=
  if toolName = .str "web_search" ∨ toolName = .str "batch_web_surfer" then
    match result.output with
    | some (.arr items) => extractItems utc items st
    | _ => (st, none)
  else if toolName = .str "web_browse" then
    match result.output with
    | some (.obj kvs) =>
        match pySliceVal ((List.lookup "content" kvs).getD (.str "")) 500 with
        | .error e => (st, some e)
        | .ok snip =>
            ({ st with evidence := st.evidence ++
                 [{ source_url := (List.lookup "url" kvs).getD (.str "")
                    source_title := (List.lookup "title" kvs).getD (.str "")
                    snippet := snip
                    retrieved_at := utc }] }, none)
    | _ => (st, none)
  else if toolName = .str "cross_validate" then
    match result.output with
    | some (.obj kvs) =>
        ({ st with claims := st.claims ++
             [{ text := (List.lookup "claim" kvs).getD (.str "")
                status := (List.lookup "status" kvs).getD (.str "uncertain")
                supporting_sources := (List.lookup "supporting_sources" kvs).getD (.num 0) }] }, none)
    | _ => (st, none)
  else (st, none)

/-- ReActAgent._determine_phase.  The late-run threshold compares
step_count > max_steps * 0.7; it is modelled by the exact rational
comparison 10 * step_count > 7 * max_steps (the source evaluates it in
floating point; no claim depends on this heuristic). -/
def determinePhase (maxSteps : Nat) (st : AgentState) : String :=
  if st.step_count ≤ 2 then "planning"
  else
    let recent := (st.tool_calls.drop (st.tool_calls.length - 5)).map TrackedCall.tool
    if Json.str "reflect" ∈ recent ∨ Json.str "cross_validate" ∈ recent then "reflection"
    else if (Json.str "file_write" ∈ recent ∨ Json.str "file_edit" ∈ recent) ∧
            (st.tool_calls.drop (st.tool_calls.length - 3)).any
              (fun tc => containsSub (strLower tc.args) "report") then
      "report_generation"
    else if (Json.str "web_search" ∈ recent ∨ Json.str "web_browse" ∈ recent ∨
             Json.str "batch_web_surfer" ∈ recent) then
      "information_seeking"
    else if 7 * maxSteps < 10 * st.step_count then "report_generation"
    else "information_seeking"

/-- Completion detection of the no-tool-call branch (react_agent.py
lines 180-196): guarded by content truthiness; the report path fires on
mere containment of both markers, slicing from after the first opening
marker to the first closing marker anywhere in the text; the fallback
path fires on a natural stop after step 5 with more than 1000
characters. -/
def reportCheck (resp : ModelResponse) (st : AgentState) : AgentState :=
  match resp.message.content with
  | none => st
  | some c =>
      if c = "" then st
      else if containsSub c "<report>" ∧ containsSub c "</report>" then
        let s := (strFind c "<report>").getD 0 + 8
        let e := (strFind c "</report>").getD 0
        { st with is_complete := true,
                  report_drafts := st.report_drafts ++ [pyStrip (pySubstr c s e)] }
      else if resp.finish_reason = "stop" ∧ 5 < st.step_count then
        if 1000 < c.length then
          { st with is_complete := true, report_drafts := st.report_drafts ++ [c] }
        else st
      else st

/-- Body of one tool call inside the sub-loop of a step (react_agent.py
lines 156-178): execute the call, append the tool-role message whose
content is json.dumps(output) if the output is truthy and the raw error
otherwise, record the call, and on success run evidence extraction;
any raise is reported to the caller with the mutations made so far. -/
def execOneCall {σ : Type} (env : Env σ) (tc : Json) (st : AgentState) (w : σ) :
    AgentState × σ × Option PyErr :=
  match executeToolCall env.loads env.toolset tc w with
  | (.error e, w2) => (st, w2, some e)
  | (.ok tr, w2) =>
      match tc.getKey "id" with
      | .error e => (st, w2, some e)
      | .ok idv =>
          let content : Option String :=
            if pyTruthy tr.output then some (env.dumps (tr.output.getD .null)) else tr.error
          let st := st.addMessage
            { role := "tool", content := content, tool_call_id := some idv }
          match tc.getKey "function" with
          | .error e => (st, w2, some e)
          | .ok func =>
              match func.getKey "name", func.getKey "arguments" with
              | .ok nm, .ok (.str argStr) =>
                  let st := { st with tool_calls := st.tool_calls ++
                    [{ tool := nm, args := argStr, success := tr.success, timestamp := env.utcNow w2 }] }
                  if tr.success then
                    match extractEvidence (env.utcNow w2) nm tr st with
                    | (st2, some e) => (st2, w2, some e)
                    | (st2, none) => (st2, w2, none)
                  else (st, w2, none)
              | .error e, _ => (st, w2, some e)
              | .ok _, .error e => (st, w2, some e)
              | .ok _, .ok _ => (st, w2, some (.typeError "unreachable: arguments checked by execute"))

/-- Tool-call sub-loop of one step: run the calls in order; the first
raise aborts the sub-loop. -/
def execToolCalls {σ : Type} (env : Env σ) : List Json → AgentState → σ → AgentState × σ × Option PyErr
  | [], st, w => (st, w, none)
  | tc :: rest, st, w =>
      match execOneCall env tc st w with
      | (st2, w2, some e) => (st2, w2, some e)
      | (st2, w2, none) => execToolCalls env rest st2 w2

/-- Rest of one iteration after a successful provider call: accumulate
usage, append the assistant message, run the tool sub-loop or the
completion check, then the optional step callback; the flag is true
when an exception was caught (the loop then breaks after recording
str(e)). -/
def stepAfter {σ : Type} (env : Env σ) (resp : ModelResponse) (st : AgentState) (w2 : σ) :
    AgentState × σ × Bool :=
  let st := st.updateUsage resp.usage
  let st := st.addMessage resp.message
  let next : AgentState × σ × Option PyErr :=
    if resp.hasToolCalls then execToolCalls env (resp.message.tool_calls.getD []) st w2
    else (reportCheck resp st, w2, none)
  match next with
  | (st2, w3, some e) => ({ st2 with error := some e.toStr }, w3, true)
  | (st2, w3, none) =>
      match env.onStep with
      | none => (st2, w3, false)
      | some cb =>
          match cb st2 w3 with
          | (some e, w4) => ({ st2 with error := some e.toStr }, w4, true)
          | (none, w4) => (st2, w4, false)

/-- Body of one while-loop iteration of ReActAgent.run, with the
loop-level try/except. -/
def stepBody {σ : Type} (env : Env σ) (maxSteps : Nat) (st : AgentState) (w : σ) :
    AgentState × σ × Bool :=
  let st := { st with step_count := st.step_count + 1 }
  let st := { st with current_phase := determinePhase maxSteps st }
  match env.provider w with
  | (.error e, w2) => ({ st with error := some e.toStr }, w2, true)
  | (.ok resp, w2) => stepAfter env resp st w2

/-- The while loop of ReActAgent.run.  Fuel only bounds the recursion;
since every iteration increments step_count and the guard requires
step_count < max_steps, fuel = max_steps - step_count makes the
function agree with the unbounded Python loop. -/
def runIter {σ : Type} (env : Env σ) (maxSteps : Nat) : Nat → AgentState → σ → AgentState × σ
  | 0, st, w => (st, w)
  | fuel + 1, st, w =>
      if st.step_count < maxSteps ∧ st.is_complete = false then
        match stepBody env maxSteps st w with
        | (st2, w2, true) => (st2, w2)
        | (st2, w2, false) => runIter env maxSteps fuel st2 w2
      else (st, w)

/-- Post-loop fallback scan (react_agent.py lines 210-213): the most
recent assistant message with truthy content. -/
def findDraft : List ChatMessage → Option String
  | [] => none
  | m :: rest =>
      match findDraft rest with
      | some c => some c
      | none =>
          if m.role = "assistant" ∧ strTruthy m.content then m.content else none

/-- ReActAgent.run: seed the history with the system prompt and the
user query, run the loop, and apply the post-loop draft fallback. -/
def ReActAgent.run {σ : Type} (env : Env σ) (maxSteps : Nat) (systemPrompt query : String)
    (state : AgentState) (w : σ) : AgentState × σ :=
  let st := state.addMessage { role := "system", content := some systemPrompt }
  let st := st.addMessage { role := "user", content := some query }
  let res := runIter env maxSteps (maxSteps - st.step_count) st w
  let st := res.1
  let st :=
    if st.report_drafts.isEmpty ∧ !st.messages.isEmpty then
      match findDraft st.messages with
      | some c => { st with report_drafts := st.report_drafts ++ [c] }
      | none => st
    else st
  (st, res.2)

/-!  OpenAIProvider.chat_completion_stream (src/agent/model_provider.py
lines 184-229): reassembly of streamed deltas into cumulative
snapshots. -/

/-- Fragment of a streamed tool call (one element of delta.tool_calls). -/
structure DeltaFunc where
  name : Option String
  arguments : Option String
deriving Repr, DecidableEq

structure DeltaToolCall where
  index : Nat
  id : Option String
  function : Option DeltaFunc
deriving Repr, DecidableEq

structure StreamDelta where
  content : Option String
  tool_calls : Option (List DeltaToolCall)
deriving Repr, DecidableEq

structure StreamChoice where
  delta : StreamDelta
  finish_reason : Option String
deriving Repr, DecidableEq

structure StreamChunk where
  choices : List StreamChoice
deriving Repr, DecidableEq

/-- Accumulated record for one stream index (the "type": "function"
field is constant and omitted). -/
structure AccToolCall where
  id : String
  name : Option String
  arguments : String
deriving Repr, DecidableEq

/-- accumulated_tool_calls: a dict from index to record; Python dicts
iterate in insertion order, modelled by an insertion-ordered
association list. -/
abbrev AccMap : Type := List (Nat × AccToolCall)

def accLookup (m : AccMap) (i : Nat) : Option AccToolCall :=
  List.lookup i m

def accInsert (m : AccMap) (i : Nat) (e : AccToolCall) : AccMap :=
  m ++ [(i, e)]

def accUpdate : AccMap → Nat → (AccToolCall → AccToolCall) → AccMap
  | [], _, _ => []
  | (k, v) :: rest, i, f => (if k = i then (k, f v) else (k, v)) :: accUpdate rest i f

/-- The fresh record a first fragment creates for its index: id is
(tc.id or ""), name is (tc.function.name if tc.function else ""), and
the argument accumulator starts empty. -/
def initEntry (tc : DeltaToolCall) : AccToolCall :=
  { id := pyOrStr tc.id ""
    name := match tc.function with | some f => f.name | none => some ""
    arguments := "" }

/-- The unconditional update lines every fragment then runs on its
index: truthy id and name overwrite, truthy argument text appends. -/
def postUpd (m : AccMap) (tc : DeltaToolCall) : AccMap :=
  let m := if strTruthy tc.id then accUpdate m tc.index (fun e => { e with id := tc.id.getD "" }) else m
  match tc.function with
  | none => m
  | some f =>
      let m := if strTruthy f.name then accUpdate m tc.index (fun e => { e with name := f.name }) else m
      if strTruthy f.arguments then
        accUpdate m tc.index (fun e => { e with arguments := e.arguments ++ f.arguments.getD "" })
      else m

/-- Processing of a single tool-call fragment (model_provider.py lines
200-217): a first fragment for an index creates the record, then the
overwrite/append lines run for every fragment, the creating one
included. -/
def streamAccStep (m : AccMap) (tc : DeltaToolCall) : AccMap :=
  postUpd (if (accLookup m tc.index).isSome then m else accInsert m tc.index (initEntry tc)) tc

/-- Rendering of one accumulated record as the raw tool-call dict the
stream yields. -/
def accJson (e : AccToolCall) : Json :=
  .obj [("id", .str e.id), ("type", .str "function"),
        ("function", .obj [("name", match e.name with | some n => .str n | none => .null),
                           ("arguments", .str e.arguments)])]

/-- The cumulative snapshot yielded after one chunk: full text so far
(None while empty), full tool-call list so far (None while empty),
finish_reason or "null". -/
def snapResp (c : String) (m : AccMap) (choice : StreamChoice) : ModelResponse :=
  { message :=
      { role := "assistant"
        content := if c = "" then none else some c
        tool_calls := if m.isEmpty then none else some (m.map fun p => accJson p.2) }
    finish_reason := pyOrStr choice.finish_reason "null" }

/-- The async-for body of chat_completion_stream: chunks without
choices are skipped; otherwise truthy delta content is appended to the
accumulator, tool-call fragments are folded in, and a cumulative
snapshot is yielded. -/
def streamRun : List StreamChunk → String → AccMap → List ModelResponse × String × AccMap
  | [], c, m => ([], c, m)
  | ch :: rest, c, m =>
      match ch.choices with
      | [] => streamRun rest c m
      | choice :: _ =>
          let c := c ++ (if strTruthy choice.delta.content then choice.delta.content.getD "" else "")
          let m :=
            match choice.delta.tool_calls with
            | some tcs => tcs.foldl streamAccStep m
            | none => m
          match streamRun rest c m with
          | (ys, c2, m2) => (snapResp c m choice :: ys, c2, m2)

/-- All tool-call fragments a chunk contributes, in arrival order. -/
def chunkFrags (ch : StreamChunk) : List DeltaToolCall :=
  match ch.choices with
  | [] => []
  | choice :: _ =>
      match choice.delta.tool_calls with
      | some tcs => tcs
      | none => []

def streamFrags : List StreamChunk → List DeltaToolCall
  | [] => []
  | ch :: rest => chunkFrags ch ++ streamFrags rest

/-!  Spec-side definitions (following the specification text, for
comparison against the embedded code). -/

/-- Specification reading of report extraction: the text strictly
between the first opening marker and the first closing marker occurring
after it, whitespace-trimmed; none when no such pair exists. -/
def specReportExtract (c : String) : Option String :=
  match strFind c "<report>" with
  | none => none
  | some i =>
      match strFind (String.mk (c.toList.drop (i + 8))) "</report>" with
      | none => none
      | some d => some (pyStrip (pySubstr c (i + 8) (i + 8 + d)))

/-- Specification reading of stream reassembly (the claim text): the
name supplied by the first fragment of an index that supplies a
non-empty one. -/
def specFirstSuppliedName (frags : List DeltaToolCall) : Option String :=
  match frags.find? (fun f => match f.function with | some fn => strTruthy fn.name | none => false) with
  | some f => match f.function with | some fn => fn.name | none => none
  | none => none

/-- Name a fresh per-index record starts from: the creating fragment
supplies its function name, or "" when it carries no function object. -/
def specNameInit (f : DeltaToolCall) : Option String :=
  match f.function with
  | some fn => fn.name
  | none => some ""

/-- One later fragment's effect on the assembled name: a truthy name
overwrites, anything else leaves it. -/
def specNameUpd (cur : Option String) (f : DeltaToolCall) : Option String :=
  match f.function with
  | some fn => if strTruthy fn.name then fn.name else cur
  | none => cur

/-- Amended reading of name assembly: initialized by the first fragment
of the index, then overwritten by every later fragment supplying a
non-empty name. -/
def specAssembledName : List DeltaToolCall → Option String
  | [] => none
  | f :: rest => rest.foldl specNameUpd (specNameInit f)

/-- Argument text contributed by one fragment. -/
def fragArgs (f : DeltaToolCall) : String :=
  match f.function with
  | some fn => fn.arguments.getD ""
  | none => ""

/-- Concatenation, in arrival order, of all argument text for an
index. -/
def specArgsConcat (frags : List DeltaToolCall) : String :=
  frags.foldl (fun s f => s ++ fragArgs f) ""

/-!  Claim C7. -/

/-- Claim C7: for every tool name not registered in the ToolSet and
every argument assignment, ToolSet.execute returns a failed ToolResult
rather than raising; two calls with the same unknown name give
structurally identical failed results, leave the world untouched, and
are independent of call order. -/
theorem claim_C7_unknown_tool_idempotent {σ : Type} (ts : ToolSetM σ) (name : String)
    (args1 args2 : List (String × Json)) (w : σ) (h : name ∉ ts.tools) :
    ts.execute (Json.str name) args1 w =
      (Except.ok { success := false, output := none, error := some ("Unknown tool: " ++ name) }, w) ∧
    ts.execute (Json.str name) args2 (ts.execute (Json.str name) args1 w).2 =
      (Except.ok { success := false, output := none, error := some ("Unknown tool: " ++ name) }, w) ∧
    (ts.execute (Json.str name) args1 w).1 = (ts.execute (Json.str name) args2 w).1 := by
  simp [ToolSetM.execute, h]

/-- Concrete toolset over a trivial world, for witnesses. -/
def unitToolSet : ToolSetM Unit :=
  { tools := toolSetNames none
    impl := fun _ _ w => (.ok { success := true, output := some (.obj []) }, w) }

theorem claim_C7_witness :
    "nope" ∉ unitToolSet.tools ∧
    (unitToolSet.execute (Json.str "nope") [] () =
       (Except.ok { success := false, output := none, error := some ("Unknown tool: " ++ "nope") }, ()) ∧
     unitToolSet.execute (Json.str "nope") [] (unitToolSet.execute (Json.str "nope") [] ()).2 =
       (Except.ok { success := false, output := none, error := some ("Unknown tool: " ++ "nope") }, ()) ∧
     (unitToolSet.execute (Json.str "nope") [] ()).1 = (unitToolSet.execute (Json.str "nope") [] ()).1) :=
  ⟨by decide, claim_C7_unknown_tool_idempotent unitToolSet "nope" [] [] () (by decide)⟩

/-!  Claim C10. -/

/-- Claim C10: for every ablations configuration the registry holds
exactly the five core tools plus todo / file_edit / the
reflect-and-cross_validate pair, each gated by its flag defaulting to
true, with reflect and cross_validate inseparable. -/
theorem claim_C10_registry_contents (ablations : Option (List (String × Bool))) (n : String) :
    (n ∈ toolSetNames ablations ↔
      (n = "web_search" ∨ n = "web_browse" ∨ n = "batch_web_surfer" ∨
       n = "file_write" ∨ n = "file_read" ∨
       (n = "todo" ∧ (List.lookup "enable_todo_state" (ablations.getD [])).getD true = true) ∨
       (n = "file_edit" ∧ (List.lookup "enable_patch_editing" (ablations.getD [])).getD true = true) ∨
       ((n = "reflect" ∨ n = "cross_validate") ∧
        (List.lookup "enable_reflection" (ablations.getD [])).getD true = true))) ∧
    ("reflect" ∈ toolSetNames ablations ↔ "cross_validate" ∈ toolSetNames ablations) := by
  cases h1 : (List.lookup "enable_todo_state" (ablations.getD [])).getD true <;>
    cases h2 : (List.lookup "enable_patch_editing" (ablations.getD [])).getD true <;>
      cases h3 : (List.lookup "enable_reflection" (ablations.getD [])).getD true <;>
        simp [toolSetNames, h1, h2, h3]

/-!  Claim C8: streamed snapshots are prefix-monotone in content. -/

/-- Yielded content of a snapshot, reading an absent content (the
empty accumulator) as the empty string. -/
def snapContent (r : ModelResponse) : String :=
  (r.message.content).getD ""

theorem snapContent_snapResp (c : String) (m : AccMap) (choice : StreamChoice) :
    snapContent (snapResp c m choice) = c := by
  simp only [snapContent, snapResp]
  split
  · next h => simp [h]
  · simp

theorem streamRun_content_chain (chunks : List StreamChunk) (c : String) (m : AccMap) :
    List.Chain' (fun a b : String => ∃ t, b = a ++ t)
      (c :: ((streamRun chunks c m).1.map snapContent)) := by
  induction chunks generalizing c m with
  | nil => simp [streamRun]
  | cons ch rest ih =>
      cases hch : ch.choices with
      | nil =>
          simpa [streamRun, hch] using ih c m
      | cons choice tl =>
          have hrec := ih (c ++ (if strTruthy choice.delta.content then choice.delta.content.getD "" else ""))
            (match choice.delta.tool_calls with
             | some tcs => tcs.foldl streamAccStep m
             | none => m)
          simp only [streamRun, hch]
          cases hrun : streamRun rest
              (c ++ (if strTruthy choice.delta.content then choice.delta.content.getD "" else ""))
              (match choice.delta.tool_calls with
               | some tcs => tcs.foldl streamAccStep m
               | none => m) with
          | mk ys rest2 =>
              rw [hrun] at hrec
              simp only [hrun, List.map_cons, List.chain'_cons, snapContent_snapResp]
              constructor
              · exact ⟨(if strTruthy choice.delta.content then choice.delta.content.getD "" else ""), rfl⟩
              · exact hrec

/-- Claim C8: for every streamed completion, each yielded ModelResponse
is a cumulative snapshot: the yielded content strings (reading the
initial absent content as "") form a chain in which every snapshot is a
prefix-extension of the previous one. -/
theorem claim_C8_stream_content_prefix_chain (chunks : List StreamChunk) :
    List.Chain' (fun a b : String => ∃ t, b = a ++ t)
      ((streamRun chunks "" []).1.map snapContent) :=
  (streamRun_content_chain chunks "" []).tail

/-!  Claim C4: per-index reassembly of streamed tool-call fragments. -/

theorem accLookup_accInsert (m : AccMap) (j : Nat) (e : AccToolCall) (i : Nat)
    (h : accLookup m j = none) :
    accLookup (accInsert m j e) i = if i = j then some e else accLookup m i := by
  induction m with
  | nil =>
      by_cases hij : i = j
      · simp [accLookup, accInsert, List.lookup, hij]
      · simp [accLookup, accInsert, List.lookup, hij, beq_eq_false_iff_ne.mpr hij]
  | cons p rest ih =>
      obtain ⟨k, v⟩ := p
      have hjk : (j == k) = false := by
        cases hc : (j == k) with
        | false => rfl
        | true => simp [accLookup, List.lookup, hc] at h
      have hjk2 : j ≠ k := by
        intro hh
        rw [hh] at hjk
        simp at hjk
      have hr : accLookup rest j = none := by
        simpa [accLookup, List.lookup, hjk] using h
      by_cases hik : i = k
      · have hij : ¬ i = j := fun hh => hjk2 (hh.symm.trans hik)
        simp [accLookup, accInsert, List.lookup, hik, hij, Ne.symm hjk2]
      · have hikb : (i == k) = false := beq_eq_false_iff_ne.mpr hik
        have := ih hr
        simp only [accLookup, accInsert, List.cons_append, List.lookup, hikb] at this ⊢
        exact this

theorem accLookup_accUpdate (m : AccMap) (j : Nat) (f : AccToolCall → AccToolCall) (i : Nat) :
    accLookup (accUpdate m j f) i =
      if i = j then (accLookup m i).map f else accLookup m i := by
  induction m with
  | nil =>
      by_cases hij : i = j <;> simp [accLookup, accUpdate, List.lookup, hij]
  | cons p rest ih =>
      obtain ⟨k, v⟩ := p
      simp only [accUpdate]
      by_cases hkj : k = j
      · rw [if_pos hkj]
        by_cases hik : i = k
        · have hij : i = j := hik.trans hkj
          simp [accLookup, List.lookup, hik, hij, hkj]
        · have hij : ¬ i = j := fun hh => hik (hh.trans hkj.symm)
          simp only [accLookup, List.lookup, beq_eq_false_iff_ne.mpr hik] at ih ⊢
          simp [ih, hij]
      · rw [if_neg hkj]
        by_cases hik : i = k
        · have hij : ¬ i = j := fun hh => hkj (hik.symm.trans hh)
          simp [accLookup, List.lookup, hik, hij, hkj]
        · simp only [accLookup, List.lookup, beq_eq_false_iff_ne.mpr hik] at ih ⊢
          exact ih

/-- The effect of `postUpd` on its own index, as a record function. -/
def postApply (tc : DeltaToolCall) (e : AccToolCall) : AccToolCall :=
  let e := if strTruthy tc.id then { e with id := tc.id.getD "" } else e
  match tc.function with
  | none => e
  | some f =>
      let e := if strTruthy f.name then { e with name := f.name } else e
      if strTruthy f.arguments then { e with arguments := e.arguments ++ f.arguments.getD "" } else e

theorem accLookup_postUpd (m : AccMap) (tc : DeltaToolCall) (i : Nat) :
    accLookup (postUpd m tc) i =
      if i = tc.index then (accLookup m i).map (postApply tc) else accLookup m i := by
  by_cases hi : i = tc.index
  · subst hi
    unfold postUpd postApply
    cases hfn : tc.function with
    | none =>
        by_cases hid : strTruthy tc.id = true <;>
          simp [hid, accLookup_accUpdate]
    | some f =>
        by_cases hid : strTruthy tc.id = true <;>
          by_cases hnm : strTruthy f.name = true <;>
            by_cases har : strTruthy f.arguments = true <;>
              simp [hid, hnm, har, accLookup_accUpdate] <;> cases accLookup m tc.index <;> rfl
  · unfold postUpd
    cases hfn : tc.function with
    | none =>
        by_cases hid : strTruthy tc.id = true <;> simp [hid, accLookup_accUpdate, hi]
    | some f =>
        by_cases hid : strTruthy tc.id = true <;>
          by_cases hnm : strTruthy f.name = true <;>
            by_cases har : strTruthy f.arguments = true <;>
              simp [hid, hnm, har, accLookup_accUpdate, hi]

/-- Per-index transition of one fragment: create the record when the
index is new, then apply the overwrite/append lines. -/
def idxStep (cur : Option AccToolCall) (tc : DeltaToolCall) : AccToolCall :=
  postApply tc (match cur with | some e => e | none => initEntry tc)

theorem accLookup_streamAccStep (m : AccMap) (tc : DeltaToolCall) (i : Nat) :
    accLookup (streamAccStep m tc) i =
      if i = tc.index then some (idxStep (accLookup m tc.index) tc) else accLookup m i := by
  unfold streamAccStep idxStep
  cases hcur : accLookup m tc.index with
  | some e0 =>
      simp only [hcur, Option.isSome_some, if_true, accLookup_postUpd]
      by_cases hi : i = tc.index <;> simp [hi, hcur]
  | none =>
      simp only [hcur, Option.isSome_none, Bool.false_eq_true, if_false, accLookup_postUpd,
        accLookup_accInsert m tc.index (initEntry tc) _ hcur]
      by_cases hi : i = tc.index <;> simp [hi, hcur]

theorem streamRun_accMap (chunks : List StreamChunk) (c : String) (m : AccMap) :
    (streamRun chunks c m).2.2 = (streamFrags chunks).foldl streamAccStep m := by
  induction chunks generalizing c m with
  | nil => rfl
  | cons ch rest ih =>
      cases hch : ch.choices with
      | nil =>
          have hcf : chunkFrags ch = [] := by simp [chunkFrags, hch]
          simp [streamRun, hch, streamFrags, hcf, ih c m]
      | cons choice tl =>
          have hcf : (match choice.delta.tool_calls with
                      | some tcs => List.foldl streamAccStep m tcs
                      | none => m) = (chunkFrags ch).foldl streamAccStep m := by
            simp only [chunkFrags, hch]
            cases choice.delta.tool_calls <;> rfl
          simp only [streamRun, hch]
          cases hrun : streamRun rest
              (c ++ (if strTruthy choice.delta.content then choice.delta.content.getD "" else ""))
              (match choice.delta.tool_calls with
               | some tcs => List.foldl streamAccStep m tcs
               | none => m) with
          | mk ys p =>
              have hih := ih
                (c ++ (if strTruthy choice.delta.content then choice.delta.content.getD "" else ""))
                (match choice.delta.tool_calls with
                 | some tcs => List.foldl streamAccStep m tcs
                 | none => m)
              rw [hrun] at hih
              simp only [hrun, streamFrags, List.foldl_append]
              rw [← hcf]
              simpa using hih

theorem accLookup_foldl_frags (fs : List DeltaToolCall) (m : AccMap) (i : Nat) :
    accLookup (fs.foldl streamAccStep m) i =
      (fs.filter (fun f => f.index == i)).foldl (fun cur f => some (idxStep cur f)) (accLookup m i) := by
  induction fs generalizing m with
  | nil => rfl
  | cons f rest ih =>
      by_cases hfi : f.index = i
      · have hb : (f.index == i) = true := beq_iff_eq.mpr hfi
        simp only [List.foldl_cons, List.filter_cons, hb, if_true]
        rw [ih, accLookup_streamAccStep]
        rw [if_pos hfi.symm, hfi]
      · have hb : (f.index == i) = false := beq_eq_false_iff_ne.mpr hfi
        simp only [List.foldl_cons, List.filter_cons, hb, Bool.false_eq_true, if_false]
        rw [ih, accLookup_streamAccStep, if_neg (fun hh => hfi hh.symm)]

theorem postApply_name (tc : DeltaToolCall) (e : AccToolCall) :
    (postApply tc e).name = specNameUpd e.name tc := by
  unfold postApply specNameUpd
  cases tc.function with
  | none => by_cases hid : strTruthy tc.id = true <;> simp [hid]
  | some f =>
      by_cases hid : strTruthy tc.id = true <;>
        by_cases hnm : strTruthy f.name = true <;>
          by_cases har : strTruthy f.arguments = true <;>
            simp [hid, hnm, har]

theorem strTruthy_false_getD (o : Option String) (h : ¬ strTruthy o = true) : o.getD "" = "" := by
  cases o with
  | none => rfl
  | some s =>
      have hs : s = "" := by simpa [strTruthy] using h
      simp [hs]

theorem postApply_args (tc : DeltaToolCall) (e : AccToolCall) :
    (postApply tc e).arguments = e.arguments ++ fragArgs tc := by
  unfold postApply fragArgs
  cases tc.function with
  | none => by_cases hid : strTruthy tc.id = true <;> simp [hid]
  | some f =>
      by_cases hid : strTruthy tc.id = true <;>
        by_cases hnm : strTruthy f.name = true <;>
          by_cases har : strTruthy f.arguments = true <;>
            simp [hid, hnm, har, strTruthy_false_getD]

theorem foldl_idxStep_some (rest : List DeltaToolCall) (e : AccToolCall) :
    rest.foldl (fun cur tc => some (idxStep cur tc)) (some e) =
      some (rest.foldl (fun acc tc => postApply tc acc) e) := by
  induction rest generalizing e with
  | nil => rfl
  | cons f r ih =>
      rw [List.foldl_cons, List.foldl_cons]
      exact ih (postApply f e)

theorem foldl_postApply_name (rest : List DeltaToolCall) (e : AccToolCall) :
    (rest.foldl (fun acc tc => postApply tc acc) e).name = rest.foldl specNameUpd e.name := by
  induction rest generalizing e with
  | nil => rfl
  | cons f r ih => simp [List.foldl_cons, ih, postApply_name]

theorem foldl_postApply_args (rest : List DeltaToolCall) (e : AccToolCall) :
    (rest.foldl (fun acc tc => postApply tc acc) e).arguments =
      rest.foldl (fun s tc => s ++ fragArgs tc) e.arguments := by
  induction rest generalizing e with
  | nil => rfl
  | cons f r ih => simp [List.foldl_cons, ih, postApply_args]

theorem specNameUpd_init (f : DeltaToolCall) : specNameUpd (specNameInit f) f = specNameInit f := by
  unfold specNameUpd specNameInit
  cases hfn : f.function with
  | none => rfl
  | some fn => by_cases h : strTruthy fn.name = true <;> simp [h]

theorem initEntry_name (f : DeltaToolCall) : (initEntry f).name = specNameInit f := rfl

/-- Claim C4 (amended): for each stream index, the reassembled call
exists iff some fragment carried that index; its arguments string is
the concatenation, in arrival order, of all argument text for the
index, and its name is the one set by the first fragment and then
OVERWRITTEN by every later fragment supplying a non-empty name (the
original claim, that the name never changes after it is first supplied,
fails). -/
theorem claim_C4_stream_tool_call_reassembly (chunks : List StreamChunk) (idx : Nat) :
    ((streamFrags chunks).filter (fun f => f.index == idx) = [] →
       accLookup (streamRun chunks "" []).2.2 idx = none) ∧
    (∀ f rest, (streamFrags chunks).filter (fun f => f.index == idx) = f :: rest →
       ∃ e, accLookup (streamRun chunks "" []).2.2 idx = some e ∧
         e.name = specAssembledName ((streamFrags chunks).filter (fun f => f.index == idx)) ∧
         e.arguments = specArgsConcat ((streamFrags chunks).filter (fun f => f.index == idx))) := by
  constructor
  · intro hnil
    rw [streamRun_accMap, accLookup_foldl_frags, hnil]
    rfl
  · intro f rest hcons
    rw [streamRun_accMap, accLookup_foldl_frags, hcons]
    have hstart : accLookup ([] : AccMap) idx = none := rfl
    rw [hstart, List.foldl_cons]
    rw [foldl_idxStep_some]
    refine ⟨_, rfl, ?_, ?_⟩
    · rw [foldl_postApply_name]
      have h1 : (idxStep none f).name = specNameInit f := by
        show (postApply f (initEntry f)).name = specNameInit f
        rw [postApply_name, initEntry_name, specNameUpd_init]
      rw [h1]
      rfl
    · rw [foldl_postApply_args]
      have h2 : (idxStep none f).arguments = "" ++ fragArgs f := by
        show (postApply f (initEntry f)).arguments = "" ++ fragArgs f
        rw [postApply_args]
        rfl
      rw [h2]
      rfl

/-- Fragments for the C4 counterexample: the first supplies name "a",
the second supplies name "b" for the same index. -/
def c4Frag1 : DeltaToolCall :=
  { index := 0, id := some "1", function := some { name := some "a", arguments := some "x" } }

def c4Frag2 : DeltaToolCall :=
  { index := 0, id := none, function := some { name := some "b", arguments := some "y" } }

def c4Chunks : List StreamChunk :=
  [ { choices := [{ delta := { content := none, tool_calls := some [c4Frag1] }, finish_reason := none }] },
    { choices := [{ delta := { content := none, tool_calls := some [c4Frag2] }, finish_reason := none }] } ]

/-- Claim C4 counterexample: the first fragment of index 0 supplies
name "a", yet the reassembled call ends with name "b" (and arguments
"xy"): a later fragment overwrites the name, so the claim as stated is
false. -/
theorem claim_C4_counterexample :
    specFirstSuppliedName (streamFrags c4Chunks) = some "a" ∧
    accLookup (streamRun c4Chunks "" []).2.2 0 =
      some { id := "1", name := some "b", arguments := "xy" } ∧
    (some "b" : Option String) ≠ some "a" := by
  refine ⟨rfl, ?_, by decide⟩
  rfl

theorem claim_C4_witness :
    ∃ e, accLookup (streamRun c4Chunks "" []).2.2 0 = some e ∧
      e.name = specAssembledName ((streamFrags c4Chunks).filter (fun f => f.index == 0)) ∧
      e.arguments = specArgsConcat ((streamFrags c4Chunks).filter (fun f => f.index == 0)) :=
  (claim_C4_stream_tool_call_reassembly c4Chunks 0).2 c4Frag1 [c4Frag2] (by decide)

/-!  Claim C6: claim extraction from cross_validate results. -/

/-- Claim C6 (amended): for a successful cross_validate result, a claim
entry is appended if and only if the output is a JSON object — any
object, fields are NOT required: absent fields default to "",
"uncertain" and 0 (the original claim, that an output lacking the
fields appends no entry, fails). -/
theorem claim_C6_cross_validate_extraction (utc : String) (tr : ToolResult) (st : AgentState) :
    (∀ kvs, tr.output = some (.obj kvs) →
       extractEvidence utc (.str "cross_validate") tr st =
         ({ st with claims := st.claims ++
              [{ text := (List.lookup "claim" kvs).getD (.str "")
                 status := (List.lookup "status" kvs).getD (.str "uncertain")
                 supporting_sources := (List.lookup "supporting_sources" kvs).getD (.num 0) }] },
          none)) ∧
    ((∀ kvs, tr.output ≠ some (.obj kvs)) →
       extractEvidence utc (.str "cross_validate") tr st = (st, none)) := by
  constructor
  · intro kvs hout
    simp [extractEvidence, hout]
  · intro hnot
    unfold extractEvidence
    simp only [if_neg, if_pos]
    cases hout : tr.output with
    | none => simp
    | some j =>
        cases j with
        | obj kvs => exact absurd hout (hnot kvs)
        | null => simp
        | bool b => simp
        | num n => simp
        | str s => simp
        | arr xs => simp

/-- Claim C6 counterexample: a successful cross_validate result whose
output is the empty object (lacking all three fields) still appends
exactly one claim entry, filled with the defaults; the claim says no
entry should be appended. -/
theorem claim_C6_counterexample :
    (AgentState.init "r").claims = [] ∧
    (extractEvidence "t" (.str "cross_validate")
        { success := true, output := some (.obj []) } (AgentState.init "r")).1.claims =
      [{ text := .str "", status := .str "uncertain", supporting_sources := .num 0 }] := by
  constructor
  · rfl
  · rfl

theorem claim_C6_witness :
    extractEvidence "t" (.str "cross_validate")
        { success := true
          output := some (.obj [("claim", .str "X"), ("status", .str "supported"),
                                ("supporting_sources", .num 2)]) }
        (AgentState.init "r") =
      ({ AgentState.init "r" with
           claims := [{ text := .str "X", status := .str "supported", supporting_sources := .num 2 }] },
       none) := by
  have h := (claim_C6_cross_validate_extraction "t"
      { success := true
        output := some (.obj [("claim", .str "X"), ("status", .str "supported"),
                              ("supporting_sources", .num 2)]) }
      (AgentState.init "r")).1
      [("claim", .str "X"), ("status", .str "supported"), ("supporting_sources", .num 2)] rfl
  simpa using h

/-!  Claim C2: string lemmas relating first-occurrence search on a
suffix to first-occurrence search on the whole text. -/

theorem subFind_drop (pat : List Char) : ∀ (s : Nat) (l : List Char) (j : Nat),
    subFind l pat = some j → s ≤ j → subFind (l.drop s) pat = some (j - s) := by
  intro s
  induction s with
  | zero =>
      intro l j h _
      simpa using h
  | succ s ih =>
      intro l j h hs
      cases l with
      | nil =>
          rw [subFind] at h
          split at h
          · injection h with h0
            omega
          · simp at h
      | cons a t =>
          rw [subFind] at h
          split at h
          · injection h with h0
            omega
          · cases hsub : subFind t pat with
            | none => rw [hsub] at h; simp at h
            | some j0 =>
                rw [hsub] at h
                simp only [Option.map_some'] at h
                injection h with h1
                rw [List.drop_succ_cons]
                rw [ih t j0 hsub (by omega)]
                congr 1
                omega

theorem specReportExtract_of_markers (c : String) (i j : Nat)
    (hi : strFind c "<report>" = some i) (hj : strFind c "</report>" = some j)
    (hij : i + 8 ≤ j) :
    specReportExtract c = some (pyStrip (pySubstr c (i + 8) j)) := by
  unfold specReportExtract
  rw [hi]
  have hd : strFind (String.mk (c.toList.drop (i + 8))) "</report>" = some (j - (i + 8)) := by
    unfold strFind at hj ⊢
    simpa using subFind_drop _ (i + 8) c.toList j hj hij
  have harith : i + 8 + (j - (i + 8)) = j := by omega
  simp only [hd, harith]

/-!  Invariant infrastructure for the run loop (claims C1, C2, C3, C5,
C9). -/

/-- The state fields the loop invariants track: everything evidence or
claim extraction never touches. -/
def sameCore (a b : AgentState) : Prop :=
  a.messages = b.messages ∧ a.is_complete = b.is_complete ∧
  a.report_drafts = b.report_drafts ∧ a.step_count = b.step_count

theorem sameCore_refl (a : AgentState) : sameCore a a := ⟨rfl, rfl, rfl, rfl⟩

theorem sameCore_trans {a b c : AgentState} (h1 : sameCore a b) (h2 : sameCore b c) : sameCore a c :=
  ⟨h1.1.trans h2.1, h1.2.1.trans h2.2.1, h1.2.2.1.trans h2.2.2.1, h1.2.2.2.trans h2.2.2.2⟩

theorem extractContents_core (utc : String) (cs : List Json) (st : AgentState) :
    sameCore (extractContents utc cs st).1 st := by
  induction cs generalizing st with
  | nil => exact sameCore_refl st
  | cons c rest ih =>
      simp only [extractContents]
      cases hev : evidenceOfContent utc c with
      | error e => exact sameCore_refl st
      | ok ev => exact ih { st with evidence := st.evidence ++ [ev] }

theorem extractItems_core (utc : String) (items : List Json) (st : AgentState) :
    sameCore (extractItems utc items st).1 st := by
  induction items generalizing st with
  | nil => exact sameCore_refl st
  | cons item rest ih =>
      simp only [extractItems]
      cases item with
      | obj kvs =>
          by_cases hbc : (List.lookup "browsed_content" kvs).isSome = true
          · simp only [hbc, if_true]
            split
            · exact sameCore_refl st
            · rename_i contents heq
              split
              · rename_i st2 e hec
                have h := extractContents_core utc contents st
                rw [hec] at h
                exact h
              · rename_i st2 hec
                have h := extractContents_core utc contents st
                rw [hec] at h
                exact sameCore_trans (ih st2) h
          · simp only [hbc, if_false]
            by_cases hurl : (List.lookup "url" kvs).isSome = true
            · simp only [hurl, if_true]
              exact ih _
            · simp only [hurl, if_false]
              exact ih st
      | null => exact ih st
      | bool b => exact ih st
      | num n => exact ih st
      | str s => exact ih st
      | arr xs => exact ih st

theorem extractEvidence_core (utc : String) (nm : Json) (tr : ToolResult) (st : AgentState) :
    sameCore (extractEvidence utc nm tr st).1 st := by
  unfold extractEvidence
  split
  · split
    · rename_i items heq
      exact extractItems_core utc items st
    · exact sameCore_refl st
  · split
    · split
      · rename_i kvs heq
        split
        · exact sameCore_refl st
        · exact ⟨rfl, rfl, rfl, rfl⟩
      · exact sameCore_refl st
    · split
      · split
        · rename_i kvs heq
          exact ⟨rfl, rfl, rfl, rfl⟩
        · exact sameCore_refl st
      · exact sameCore_refl st

theorem updateUsage_ex (u : List (String × Int)) : ∀ st : AgentState,
    ∃ p q r, st.updateUsage u =
      { st with prompt_tokens := p, completion_tokens := q, total_tokens := r } := by
  induction u with
  | nil =>
      intro st
      exact ⟨st.prompt_tokens, st.completion_tokens, st.total_tokens, rfl⟩
  | cons kv rest ih =>
      intro st
      have hstep : st.updateUsage (kv :: rest) =
          AgentState.updateUsage
            (if kv.1 = "prompt_tokens" then { st with prompt_tokens := st.prompt_tokens + kv.2 }
             else if kv.1 = "completion_tokens" then { st with completion_tokens := st.completion_tokens + kv.2 }
             else if kv.1 = "total_tokens" then { st with total_tokens := st.total_tokens + kv.2 }
             else st) rest := rfl
      rw [hstep]
      split_ifs with h1 h2 h3 <;>
      · obtain ⟨p, q, r, hh⟩ := ih _
        exact ⟨p, q, r, by rw [hh]⟩

theorem reportCheck_core (resp : ModelResponse) (st : AgentState) :
    (reportCheck resp st).step_count = st.step_count ∧
    (reportCheck resp st).messages = st.messages ∧
    ((st.is_complete = true → st.report_drafts ≠ []) →
     ((reportCheck resp st).is_complete = true → (reportCheck resp st).report_drafts ≠ [])) := by
  unfold reportCheck
  split
  · exact ⟨rfl, rfl, fun h => h⟩
  · rename_i c hc
    split
    · exact ⟨rfl, rfl, fun h => h⟩
    · split
      · exact ⟨rfl, rfl, fun _ _ => by simp⟩
      · split
        · split
          · exact ⟨rfl, rfl, fun _ _ => by simp⟩
          · exact ⟨rfl, rfl, fun h => h⟩
        · exact ⟨rfl, rfl, fun h => h⟩

theorem extractEvidence_core_eq (utc : String) (nm : Json) (tr : ToolResult)
    (st st2 : AgentState) (eo : Option PyErr)
    (h : extractEvidence utc nm tr st = (st2, eo)) : sameCore st2 st := by
  have hh := extractEvidence_core utc nm tr st
  rw [h] at hh
  exact hh

theorem execOneCall_core {σ : Type} (env : Env σ) (tc : Json) (st : AgentState) (w : σ) :
    (execOneCall env tc st w).1.is_complete = st.is_complete ∧
    (execOneCall env tc st w).1.report_drafts = st.report_drafts ∧
    (execOneCall env tc st w).1.step_count = st.step_count ∧
    ∃ t, (execOneCall env tc st w).1.messages = st.messages ++ t := by
  unfold execOneCall
  dsimp only
  repeat' split
  all_goals
    first
      | exact ⟨rfl, rfl, rfl, [], (List.append_nil _).symm⟩
      | exact ⟨rfl, rfl, rfl, _, rfl⟩
      | (rename_i st2 e hec
         exact (fun h => ⟨h.2.1, h.2.2.1, h.2.2.2, _, h.1⟩) (extractEvidence_core_eq _ _ _ _ _ _ hec))

theorem execOneCall_core_eq {σ : Type} (env : Env σ) (tc : Json) (st : AgentState) (w : σ)
    (st2 : AgentState) (w2 : σ) (eo : Option PyErr)
    (h : execOneCall env tc st w = (st2, w2, eo)) :
    st2.is_complete = st.is_complete ∧ st2.report_drafts = st.report_drafts ∧
    st2.step_count = st.step_count ∧ ∃ t, st2.messages = st.messages ++ t := by
  have hh := execOneCall_core env tc st w
  rw [h] at hh
  exact hh

theorem execToolCalls_core {σ : Type} (env : Env σ) :
    ∀ (tcs : List Json) (st : AgentState) (w : σ),
    (execToolCalls env tcs st w).1.is_complete = st.is_complete ∧
    (execToolCalls env tcs st w).1.report_drafts = st.report_drafts ∧
    (execToolCalls env tcs st w).1.step_count = st.step_count ∧
    ∃ t, (execToolCalls env tcs st w).1.messages = st.messages ++ t := by
  intro tcs
  induction tcs with
  | nil => intro st w; exact ⟨rfl, rfl, rfl, [], (List.append_nil _).symm⟩
  | cons tc rest ih =>
      intro st w
      simp only [execToolCalls]
      split
      · rename_i st2 w2 e hone
        have h := execOneCall_core_eq env tc st w st2 w2 (some e) hone
        exact ⟨h.1, h.2.1, h.2.2.1, h.2.2.2⟩
      · rename_i st2 w2 hone
        have h := execOneCall_core_eq env tc st w st2 w2 none hone
        have h2 := ih st2 w2
        obtain ⟨t1, ht1⟩ := h.2.2.2
        obtain ⟨t2, ht2⟩ := h2.2.2.2
        refine ⟨h2.1.trans h.1, h2.2.1.trans h.2.1, h2.2.2.1.trans h.2.2.1, t1 ++ t2, ?_⟩
        rw [ht2, ht1, List.append_assoc]

theorem execToolCalls_core_eq {σ : Type} (env : Env σ) (tcs : List Json) (st : AgentState) (w : σ)
    (st2 : AgentState) (w2 : σ) (eo : Option PyErr)
    (h : execToolCalls env tcs st w = (st2, w2, eo)) :
    st2.is_complete = st.is_complete ∧ st2.report_drafts = st.report_drafts ∧
    st2.step_count = st.step_count ∧ ∃ t, st2.messages = st.messages ++ t := by
  have hh := execToolCalls_core env tcs st w
  rw [h] at hh
  exact hh

theorem stepAfter_core {σ : Type} (env : Env σ) (resp : ModelResponse) (st : AgentState) (w2 : σ) :
    (stepAfter env resp st w2).1.step_count = st.step_count ∧
    (∃ t, (stepAfter env resp st w2).1.messages = st.messages ++ t) ∧
    ((st.is_complete = true → st.report_drafts ≠ []) →
     ((stepAfter env resp st w2).1.is_complete = true →
      (stepAfter env resp st w2).1.report_drafts ≠ [])) := by
  unfold stepAfter
  dsimp only
  obtain ⟨p, q, r, hU⟩ := updateUsage_ex resp.usage st
  rw [hU]
  by_cases htc : resp.hasToolCalls = true
  · rw [if_pos htc]
    split
    · rename_i st2 w3 e hnext
      have h := execToolCalls_core_eq _ _ _ _ _ _ _ hnext
      obtain ⟨t, ht⟩ := h.2.2.2
      refine ⟨h.2.2.1, ⟨resp.message :: t, ?_⟩, fun hinv hic => ?_⟩
      · rw [ht]
        simp [AgentState.addMessage]
      · have hic2 : st.is_complete = true := h.1 ▸ hic
        have hd : st.report_drafts ≠ [] := hinv hic2
        rw [h.2.1]
        exact hd
    · rename_i st2 w3 hnext
      have h := execToolCalls_core_eq _ _ _ _ _ _ _ hnext
      obtain ⟨t, ht⟩ := h.2.2.2
      have hmain : st2.step_count = st.step_count ∧
          (∃ t2, st2.messages = st.messages ++ t2) ∧
          ((st.is_complete = true → st.report_drafts ≠ []) →
           (st2.is_complete = true → st2.report_drafts ≠ [])) := by
        refine ⟨h.2.2.1, ⟨resp.message :: t, ?_⟩, fun hinv hic => ?_⟩
        · rw [ht]
          simp [AgentState.addMessage]
        · have hic2 : st.is_complete = true := h.1 ▸ hic
          have hd : st.report_drafts ≠ [] := hinv hic2
          rw [h.2.1]
          exact hd
      split
      · exact hmain
      · split
        · exact hmain
        · exact hmain
  · rw [if_neg htc]
    have hrc := reportCheck_core resp
      (({ st with prompt_tokens := p, completion_tokens := q, total_tokens := r } : AgentState).addMessage
        resp.message)
    have hmain : (reportCheck resp
          (({ st with prompt_tokens := p, completion_tokens := q, total_tokens := r } : AgentState).addMessage
            resp.message)).step_count = st.step_count ∧
        (∃ t2, (reportCheck resp
          (({ st with prompt_tokens := p, completion_tokens := q, total_tokens := r } : AgentState).addMessage
            resp.message)).messages = st.messages ++ t2) ∧
        ((st.is_complete = true → st.report_drafts ≠ []) →
         ((reportCheck resp
          (({ st with prompt_tokens := p, completion_tokens := q, total_tokens := r } : AgentState).addMessage
            resp.message)).is_complete = true →
          (reportCheck resp
          (({ st with prompt_tokens := p, completion_tokens := q, total_tokens := r } : AgentState).addMessage
            resp.message)).report_drafts ≠ [])) := by
      refine ⟨hrc.1, ⟨[resp.message], ?_⟩, fun hinv => hrc.2.2 hinv⟩
      rw [hrc.2.1]
      simp [AgentState.addMessage]
    split
    · rename_i st2 w3 e heq
      exact absurd (congrArg (fun x => x.2.2) heq) (by simp)
    · rename_i st2 w3 heq
      have hst2 : reportCheck resp
          (({ st with prompt_tokens := p, completion_tokens := q, total_tokens := r } : AgentState).addMessage
            resp.message) = st2 := congrArg Prod.fst heq
      subst hst2
      split
      · exact hmain
      · split
        · exact hmain
        · exact hmain

theorem stepBody_core {σ : Type} (env : Env σ) (maxSteps : Nat) (st : AgentState) (w : σ) :
    (stepBody env maxSteps st w).1.step_count = st.step_count + 1 ∧
    (∃ t, (stepBody env maxSteps st w).1.messages = st.messages ++ t) ∧
    ((st.is_complete = true → st.report_drafts ≠ []) →
     ((stepBody env maxSteps st w).1.is_complete = true →
      (stepBody env maxSteps st w).1.report_drafts ≠ [])) := by
  unfold stepBody
  dsimp only
  split
  · exact ⟨rfl, ⟨[], (List.append_nil _).symm⟩, fun h => h⟩
  · rename_i resp w2 hprov
    exact stepAfter_core env resp
      { st with step_count := st.step_count + 1,
                current_phase := determinePhase maxSteps { st with step_count := st.step_count + 1 } } w2

theorem stepBody_core_eq {σ : Type} (env : Env σ) (maxSteps : Nat) (st : AgentState) (w : σ)
    (st2 : AgentState) (w2 : σ) (brk : Bool)
    (h : stepBody env maxSteps st w = (st2, w2, brk)) :
    st2.step_count = st.step_count + 1 ∧
    (∃ t, st2.messages = st.messages ++ t) ∧
    ((st.is_complete = true → st.report_drafts ≠ []) →
     (st2.is_complete = true → st2.report_drafts ≠ [])) := by
  have hh := stepBody_core env maxSteps st w
  rw [h] at hh
  exact hh

theorem runIter_invariant {σ : Type} (env : Env σ) (maxSteps : Nat) :
    ∀ (fuel : Nat) (st : AgentState) (w : σ),
      st.step_count ≤ maxSteps →
      (st.is_complete = true → st.report_drafts ≠ []) →
      ((runIter env maxSteps fuel st w).1.step_count ≤ maxSteps ∧
       ((runIter env maxSteps fuel st w).1.is_complete = true →
        (runIter env maxSteps fuel st w).1.report_drafts ≠ []) ∧
       ∃ t, (runIter env maxSteps fuel st w).1.messages = st.messages ++ t) := by
  intro fuel
  induction fuel with
  | zero =>
      intro st w h1 h2
      exact ⟨h1, h2, [], (List.append_nil _).symm⟩
  | succ fuel ih =>
      intro st w h1 h2
      simp only [runIter]
      split
      · rename_i hg
        split
        · rename_i st2 w2 hsb
          have hc := stepBody_core_eq env maxSteps st w st2 w2 true hsb
          obtain ⟨t, ht⟩ := hc.2.1
          dsimp only
          exact ⟨by omega, hc.2.2 h2, t, ht⟩
        · rename_i st2 w2 hsb
          have hc := stepBody_core_eq env maxSteps st w st2 w2 false hsb
          obtain ⟨t, ht⟩ := hc.2.1
          have hrec := ih st2 w2 (by omega) (hc.2.2 h2)
          obtain ⟨t2, ht2⟩ := hrec.2.2
          exact ⟨hrec.1, hrec.2.1, t ++ t2, by rw [ht2, ht, List.append_assoc]⟩
      · exact ⟨h1, h2, [], (List.append_nil _).symm⟩

theorem runIter_complete_exit {σ : Type} (env : Env σ) (maxSteps fuel : Nat) (st : AgentState)
    (w : σ) (h : st.is_complete = true) : runIter env maxSteps fuel st w = (st, w) := by
  cases fuel with
  | zero => rfl
  | succ fuel =>
      simp only [runIter]
      rw [if_neg]
      intro hc
      rw [h] at hc
      exact absurd hc.2 (by simp)

theorem runIter_step_mono {σ : Type} (env : Env σ) (maxSteps : Nat) :
    ∀ (fuel : Nat) (st : AgentState) (w : σ),
      st.step_count ≤ (runIter env maxSteps fuel st w).1.step_count := by
  intro fuel
  induction fuel with
  | zero => intro st w; exact le_refl _
  | succ fuel ih =>
      intro st w
      simp only [runIter]
      split
      · split
        · rename_i st2 w2 hsb
          have hc := stepBody_core_eq env maxSteps st w st2 w2 true hsb
          dsimp only
          omega
        · rename_i st2 w2 hsb
          have hc := stepBody_core_eq env maxSteps st w st2 w2 false hsb
          have := ih st2 w2
          omega
      · exact le_refl _

/-!  Claim C1. -/

/-- Claim C1: after every run, step_count is at most max_steps;
is_complete implies a non-empty report_drafts; and when the loop ends
with no draft, the post-loop fallback appends exactly the most recent
assistant message with non-empty content, or leaves zero drafts when no
such message exists. -/
theorem claim_C1_run_invariants {σ : Type} (env : Env σ) (maxSteps : Nat) (sp q rid : String)
    (w : σ) (seeded loopSt fin : AgentState)
    (hseed : seeded = ((AgentState.init rid).addMessage
      { role := "system", content := some sp }).addMessage { role := "user", content := some q })
    (hloop : loopSt = (runIter env maxSteps (maxSteps - seeded.step_count) seeded w).1)
    (hfin : fin = (ReActAgent.run env maxSteps sp q (AgentState.init rid) w).1) :
    fin.step_count ≤ maxSteps ∧
    (fin.is_complete = true → fin.report_drafts ≠ []) ∧
    (loopSt.report_drafts = [] →
      match findDraft loopSt.messages with
      | some c => fin.report_drafts = [c]
      | none => fin.report_drafts = []) := by
  subst hseed
  subst hloop
  subst hfin
  set seeded := ((AgentState.init rid).addMessage
    { role := "system", content := some sp }).addMessage { role := "user", content := some q }
    with hseed2
  set L := (runIter env maxSteps (maxSteps - seeded.step_count) seeded w).1 with hL2
  have hstep0 : seeded.step_count ≤ maxSteps := Nat.zero_le _
  have hinv0 : seeded.is_complete = true → seeded.report_drafts ≠ [] := fun h => nomatch h
  obtain ⟨hsc, hcm, t, hmsg⟩ :=
    runIter_invariant env maxSteps (maxSteps - seeded.step_count) seeded w hstep0 hinv0
  have hmne : L.messages ≠ [] := by
    rw [hmsg]
    simp [seeded, AgentState.addMessage, AgentState.init]
  have hrun : (ReActAgent.run env maxSteps sp q (AgentState.init rid) w).1 =
      (if L.report_drafts.isEmpty ∧ !L.messages.isEmpty then
         match findDraft L.messages with
         | some c => { L with report_drafts := L.report_drafts ++ [c] }
         | none => L
       else L) := rfl
  refine ⟨?_, ?_, ?_⟩
  · rw [hrun]
    split
    · split
      · exact hsc
      · exact hsc
    · exact hsc
  · rw [hrun]
    split
    · split
      · intro _
        simp
      · exact hcm
    · exact hcm
  · intro hempty
    rw [hrun]
    have hcond : L.report_drafts.isEmpty ∧ !L.messages.isEmpty := by
      constructor
      · rw [hempty]
        rfl
      · simpa using hmne
    rw [if_pos hcond]
    cases hfd : findDraft L.messages with
    | some c =>
        rw [hempty]
        rfl
    | none => exact hempty

/-- Trivial concrete environment for witnesses: the provider fails
immediately. -/
def unitEnv : Env Unit :=
  { loads := fun _ => none
    dumps := fun _ => "null"
    provider := fun w => (.error (.runtime "backend down"), w)
    toolset := unitToolSet
    onStep := none
    utcNow := fun _ => "t" }

def c1Seeded : AgentState :=
  ((AgentState.init "r").addMessage { role := "system", content := some "s" }).addMessage
    { role := "user", content := some "q" }

def c1Loop : AgentState := (runIter unitEnv 2 (2 - c1Seeded.step_count) c1Seeded ()).1

def c1Fin : AgentState := (ReActAgent.run unitEnv 2 "s" "q" (AgentState.init "r") ()).1

theorem claim_C1_witness :
    c1Fin.step_count ≤ 2 ∧
    (c1Fin.is_complete = true → c1Fin.report_drafts ≠ []) ∧
    (c1Loop.report_drafts = [] →
      match findDraft c1Loop.messages with
      | some c => c1Fin.report_drafts = [c]
      | none => c1Fin.report_drafts = []) :=
  claim_C1_run_invariants unitEnv 2 "s" "q" "r" () c1Seeded c1Loop c1Fin rfl rfl rfl

/-!  Claim C2: marker-based completion on the no-tool-call branch. -/

theorem reportCheck_marker (resp : ModelResponse) (st : AgentState) (c : String)
    (hc : resp.message.content = some c) (hcne : ¬ c = "")
    (hcon : containsSub c "<report>" = true ∧ containsSub c "</report>" = true) :
    reportCheck resp st =
      { st with is_complete := true,
                report_drafts := st.report_drafts ++
                  [pyStrip (pySubstr c ((strFind c "<report>").getD 0 + 8)
                     ((strFind c "</report>").getD 0))] } := by
  unfold reportCheck
  rw [hc]
  dsimp only
  rw [if_neg hcne, if_pos hcon]

theorem stepAfter_report {σ : Type} (env : Env σ) (resp : ModelResponse) (st : AgentState)
    (w2 : σ) (c : String)
    (hnt : resp.hasToolCalls = false) (hc : resp.message.content = some c)
    (hcne : ¬ c = "")
    (hcon : containsSub c "<report>" = true ∧ containsSub c "</report>" = true) :
    ∃ st2 w3 brk, stepAfter env resp st w2 = (st2, w3, brk) ∧
      st2.is_complete = true ∧ st2.step_count = st.step_count ∧
      st2.report_drafts = st.report_drafts ++
        [pyStrip (pySubstr c ((strFind c "<report>").getD 0 + 8)
           ((strFind c "</report>").getD 0))] := by
  unfold stepAfter
  dsimp only
  obtain ⟨p, q, r, hU⟩ := updateUsage_ex resp.usage st
  rw [hU, hnt]
  rw [if_neg (by simp)]
  rw [reportCheck_marker resp _ c hc hcne hcon]
  dsimp only
  split
  · exact ⟨_, _, _, rfl, rfl, rfl, rfl⟩
  · split
    · exact ⟨_, _, _, rfl, rfl, rfl, rfl⟩
    · exact ⟨_, _, _, rfl, rfl, rfl, rfl⟩

theorem runIter_first_step {σ : Type} (env : Env σ) (k : Nat) (st : AgentState) (w : σ)
    (h0 : st.step_count = 0) (hic : st.is_complete = false) :
    runIter env (k + 1) (k + 1 - st.step_count) st w =
      (match stepBody env (k + 1) st w with
       | (st2, w2, true) => (st2, w2)
       | (st2, w2, false) => runIter env (k + 1) k st2 w2) := by
  rw [h0, Nat.sub_zero]
  simp only [runIter]
  rw [if_pos ⟨by omega, hic⟩]

theorem stepBody_provider_ok {σ : Type} (env : Env σ) (maxSteps : Nat) (st : AgentState)
    (w w2 : σ) (resp : ModelResponse) (hp : env.provider w = (.ok resp, w2)) :
    stepBody env maxSteps st w = stepAfter env resp
      { st with step_count := st.step_count + 1,
                current_phase := determinePhase maxSteps { st with step_count := st.step_count + 1 } }
      w2 := by
  unfold stepBody
  dsimp only
  rw [hp]

/-- Claim C2 (amended): when an assistant response with no tool calls
contains both markers and the first closing marker starts no earlier
than the end of the first opening marker, the run completes on that
step with exactly the trimmed text between the first opening marker
and the first closing marker as its draft — which coincides with the
specification reading specReportExtract.  (Without the ordering
hypothesis the code still completes but slices between the first
opening and an EARLIER first closing, yielding an empty draft: see the
counterexample.) -/
theorem claim_C2_report_marker_completion {σ : Type} (env : Env σ) (maxSteps : Nat)
    (sp q rid : String) (w w2 : σ) (resp : ModelResponse) (c : String) (i j : Nat)
    (hms : 1 ≤ maxSteps)
    (hp : env.provider w = (.ok resp, w2))
    (hnt : resp.hasToolCalls = false)
    (hc : resp.message.content = some c)
    (hi : strFind c "<report>" = some i)
    (hj : strFind c "</report>" = some j)
    (hij : i + 8 ≤ j)
    (fin : AgentState)
    (hfin : fin = (ReActAgent.run env maxSteps sp q (AgentState.init rid) w).1) :
    fin.is_complete = true ∧ fin.step_count = 1 ∧
    fin.report_drafts = [pyStrip (pySubstr c (i + 8) j)] ∧
    specReportExtract c = some (pyStrip (pySubstr c (i + 8) j)) := by
  subst hfin
  obtain ⟨k, rfl⟩ : ∃ k, maxSteps = k + 1 := ⟨maxSteps - 1, by omega⟩
  have hcne : ¬ c = "" := by
    intro hce
    subst hce
    rw [show strFind "" "<report>" = none from rfl] at hi
    exact Option.noConfusion hi
  have hcon : containsSub c "<report>" = true ∧ containsSub c "</report>" = true := by
    constructor <;> simp [containsSub, hi, hj]
  set seeded := ((AgentState.init rid).addMessage
    { role := "system", content := some sp }).addMessage { role := "user", content := some q }
    with hseed
  obtain ⟨st2, w3, brk, hsa, hic2, hsc2, hrd2⟩ := stepAfter_report env resp
    { seeded with
        step_count := seeded.step_count + 1,
        current_phase := determinePhase (k + 1)
          ({ seeded with step_count := seeded.step_count + 1 } : AgentState) }
    w2 c hnt hc hcne hcon
  have hrunL : runIter env (k + 1) (k + 1 - seeded.step_count) seeded w = (st2, w3) := by
    rw [runIter_first_step env k seeded w rfl rfl]
    rw [stepBody_provider_ok env (k + 1) seeded w w2 resp hp]
    rw [hsa]
    cases brk with
    | true => rfl
    | false =>
        dsimp only
        exact runIter_complete_exit env (k + 1) k st2 w3 hic2
  have hdr : st2.report_drafts = [pyStrip (pySubstr c (i + 8) j)] := by
    rw [hrd2, hi, hj]
    rfl
  have hrun : (ReActAgent.run env (k + 1) sp q (AgentState.init rid) w).1 =
      (if st2.report_drafts.isEmpty ∧ !st2.messages.isEmpty then
         match findDraft st2.messages with
         | some c2 => { st2 with report_drafts := st2.report_drafts ++ [c2] }
         | none => st2
       else st2) := by
    unfold ReActAgent.run
    dsimp only
    rw [← hseed, hrunL]
  rw [hrun]
  rw [if_neg (by rw [hdr]; simp)]
  exact ⟨hic2, hsc2, hdr, specReportExtract_of_markers c i j hi hj hij⟩

/-- Assistant response used by the C2 counterexample: the first closing
marker precedes the first opening marker, with a well-formed pair after
it. -/
def c2Resp : ModelResponse :=
  { message := { role := "assistant", content := some "</report><report>OK</report>" }
    finish_reason := "stop" }

def c2Env : Env Unit :=
  { loads := fun _ => none
    dumps := fun _ => "null"
    provider := fun w => (.ok c2Resp, w)
    toolset := unitToolSet
    onStep := none
    utcNow := fun _ => "t" }

/-- Claim C2 counterexample: the content contains the opening marker at
index 9 and a later closing marker (at index 19 = 17 + 2); the text
strictly between them is "OK" — which is also what specReportExtract
yields — yet the run stores the draft "" because the code slices up to
the FIRST closing marker, which here precedes the opening one.  The
claim as stated is therefore false. -/
theorem claim_C2_counterexample :
    strFind "</report><report>OK</report>" "<report>" = some 9 ∧
    strFind (String.mk (("</report><report>OK</report>" : String).toList.drop 17)) "</report>" =
      some 2 ∧
    specReportExtract "</report><report>OK</report>" = some "OK" ∧
    (ReActAgent.run c2Env 3 "s" "q" (AgentState.init "r") ()).1.report_drafts = [""] ∧
    ("" : String) ≠ "OK" := by
  refine ⟨by decide, by decide, by decide, by decide, by decide⟩

def c2wResp : ModelResponse :=
  { message := { role := "assistant", content := some "<report>OK</report>" }
    finish_reason := "stop" }

def c2wEnv : Env Unit :=
  { loads := fun _ => none
    dumps := fun _ => "null"
    provider := fun w => (.ok c2wResp, w)
    toolset := unitToolSet
    onStep := none
    utcNow := fun _ => "t" }

theorem claim_C2_witness :
    ((ReActAgent.run c2wEnv 3 "s" "q" (AgentState.init "r") ()).1.is_complete = true ∧
     (ReActAgent.run c2wEnv 3 "s" "q" (AgentState.init "r") ()).1.step_count = 1 ∧
     (ReActAgent.run c2wEnv 3 "s" "q" (AgentState.init "r") ()).1.report_drafts =
       [pyStrip (pySubstr "<report>OK</report>" (0 + 8) 10)] ∧
     specReportExtract "<report>OK</report>" =
       some (pyStrip (pySubstr "<report>OK</report>" (0 + 8) 10))) ∧
    pyStrip (pySubstr "<report>OK</report>" (0 + 8) 10) = "OK" :=
  ⟨claim_C2_report_marker_completion c2wEnv 3 "s" "q" "r" () () c2wResp
     "<report>OK</report>" 0 10 (by omega) rfl rfl rfl (by decide) (by decide) (by omega) _ rfl,
   by decide⟩

/-!  Claim C3: content of the appended tool-role message. -/

theorem execOneCall_message {σ : Type} (env : Env σ) (st : AgentState) (w w2 : σ)
    (idJ nmJ : Json) (argStr : String) (kvs : List (String × Json)) (tr : ToolResult)
    (hload : env.loads argStr = some (.obj kvs))
    (hkw : List.lookup "tool_name" kvs = none)
    (hex : env.toolset.execute nmJ kvs w = (.ok tr, w2)) :
    (execOneCall env
      (Json.obj [("id", idJ), ("function", Json.obj [("name", nmJ), ("arguments", Json.str argStr)])])
      st w).1.messages =
      st.messages ++
        [{ role := "tool",
           content := if pyTruthy tr.output then some (env.dumps (tr.output.getD Json.null)) else tr.error,
           tool_call_id := some idJ }] := by
  unfold execOneCall executeToolCall
  simp only [Json.getKey, List.lookup, hload, hkw, Option.isSome_none, Bool.false_eq_true,
    if_false, hex, String.reduceBEq, String.reduceEq]
  by_cases hs : tr.success = true
  · simp only [hs, if_true]
    split
    · rename_i st2 e hec
      have h := extractEvidence_core_eq _ _ _ _ _ _ hec
      rw [h.1]
      rfl
    · rename_i st2 hec
      have h := extractEvidence_core_eq _ _ _ _ _ _ hec
      rw [h.1]
      rfl
  · simp only [if_neg hs]
    rfl

/-- Claim C3 (amended): the tool-role message appended for an executed
call carries json.dumps(output) as content exactly when the output is
TRUTHY, and the raw error string otherwise — including successful
results whose output is an empty list, empty object, empty string, zero
or null, whose message content is the error slot (None for a success),
not the serialized output. -/
theorem claim_C3_tool_message_content {σ : Type} (env : Env σ) (st : AgentState) (w w2 : σ)
    (idJ nmJ : Json) (argStr : String) (kvs : List (String × Json)) (tr : ToolResult)
    (rest : List Json)
    (hload : env.loads argStr = some (.obj kvs))
    (hkw : List.lookup "tool_name" kvs = none)
    (hex : env.toolset.execute nmJ kvs w = (.ok tr, w2)) :
    ∃ tail,
      (execToolCalls env
        (Json.obj [("id", idJ), ("function", Json.obj [("name", nmJ), ("arguments", Json.str argStr)])]
          :: rest) st w).1.messages =
      st.messages ++
        ({ role := "tool",
           content := if pyTruthy tr.output then some (env.dumps (tr.output.getD Json.null)) else tr.error,
           tool_call_id := some idJ } : ChatMessage) :: tail := by
  simp only [execToolCalls]
  split
  · rename_i st2 w2x e hone
    have hm := execOneCall_message env st w w2 idJ nmJ argStr kvs tr hload hkw hex
    rw [hone] at hm
    dsimp only at hm
    exact ⟨[], by rw [hm]⟩
  · rename_i st2 w2x hone
    have hm := execOneCall_message env st w w2 idJ nmJ argStr kvs tr hload hkw hex
    rw [hone] at hm
    dsimp only at hm
    obtain ⟨t, ht⟩ := (execToolCalls_core env rest st2 w2x).2.2.2
    refine ⟨t, ?_⟩
    rw [ht, hm]
    simp

/-- ToolResult for the C3 counterexample: a SUCCESSFUL execution whose
output is the empty list (falsy). -/
def c3Tr : ToolResult := { success := true, output := some (.arr []), error := none }

def c3Env : Env Unit :=
  { loads := fun s => if s = "\x7b\x7d" then some (.obj []) else none
    dumps := fun _ => "[]"
    provider := fun w => (.error (.runtime "n"), w)
    toolset := { tools := ["t"], impl := fun _ _ w => (.ok c3Tr, w) }
    onStep := none
    utcNow := fun _ => "ts" }

def c3Tc : Json :=
  .obj [("id", .str "1"), ("function", .obj [("name", .str "t"), ("arguments", .str "\x7b\x7d")])]

/-- Claim C3 counterexample: a successful tool call whose output is []
produces a tool message whose content is the error slot (None), not the
JSON serialization of the output, because the code branches on the
truthiness of the output rather than on success. -/
theorem claim_C3_counterexample :
    c3Tr.success = true ∧
    (execToolCalls c3Env [c3Tc] (AgentState.init "r") ()).1.messages =
      [{ role := "tool", content := none, tool_call_id := some (.str "1") }] ∧
    (none : Option String) ≠ some (c3Env.dumps (Json.arr [])) := by
  refine ⟨rfl, by decide, by decide⟩

def c3wTr : ToolResult := { success := true, output := some (.obj [("a", .num 1)]), error := none }

def c3wEnv : Env Unit :=
  { loads := fun s => if s = "\x7b\x7d" then some (.obj []) else none
    dumps := fun _ => "SERIALIZED"
    provider := fun w => (.error (.runtime "n"), w)
    toolset := { tools := ["t"], impl := fun _ _ w => (.ok c3wTr, w) }
    onStep := none
    utcNow := fun _ => "ts" }

theorem claim_C3_witness :
    ∃ tail,
      (execToolCalls c3wEnv [c3Tc] (AgentState.init "r") ()).1.messages =
      (AgentState.init "r").messages ++
        ({ role := "tool",
           content := if pyTruthy c3wTr.output then some (c3wEnv.dumps (c3wTr.output.getD Json.null))
                      else c3wTr.error,
           tool_call_id := some (.str "1") } : ChatMessage) :: tail :=
  claim_C3_tool_message_content c3wEnv (AgentState.init "r") () () (.str "1") (.str "t")
    "\x7b\x7d" [] c3wTr [] (by decide) rfl rfl

/-!  Claims C5 and C9: behaviour of the loop on malformed tool calls. -/

theorem run_loop_fields {σ : Type} (env : Env σ) (maxSteps : Nat) (sp q rid : String) (w : σ) :
    (ReActAgent.run env maxSteps sp q (AgentState.init rid) w).1.step_count =
      (runIter env maxSteps
        (maxSteps - (((AgentState.init rid).addMessage
          { role := "system", content := some sp }).addMessage
          { role := "user", content := some q }).step_count)
        (((AgentState.init rid).addMessage { role := "system", content := some sp }).addMessage
          { role := "user", content := some q }) w).1.step_count ∧
    (ReActAgent.run env maxSteps sp q (AgentState.init rid) w).1.is_complete =
      (runIter env maxSteps
        (maxSteps - (((AgentState.init rid).addMessage
          { role := "system", content := some sp }).addMessage
          { role := "user", content := some q }).step_count)
        (((AgentState.init rid).addMessage { role := "system", content := some sp }).addMessage
          { role := "user", content := some q }) w).1.is_complete ∧
    (ReActAgent.run env maxSteps sp q (AgentState.init rid) w).1.error =
      (runIter env maxSteps
        (maxSteps - (((AgentState.init rid).addMessage
          { role := "system", content := some sp }).addMessage
          { role := "user", content := some q }).step_count)
        (((AgentState.init rid).addMessage { role := "system", content := some sp }).addMessage
          { role := "user", content := some q }) w).1.error := by
  unfold ReActAgent.run
  dsimp only
  split
  · split <;> exact ⟨rfl, rfl, rfl⟩
  · exact ⟨rfl, rfl, rfl⟩

theorem execOneCall_invalid_json {σ : Type} (env : Env σ) (st : AgentState) (w : σ)
    (idJ nmJ : Json) (s : String) (hload : env.loads s = none) :
    execOneCall env
        (Json.obj [("id", idJ), ("function", Json.obj [("name", nmJ), ("arguments", Json.str s)])])
        st w =
      ({ st with
           messages := st.messages ++
             [{ role := "tool", content := some ("Invalid JSON in tool arguments: " ++ s),
                tool_call_id := some idJ }],
           tool_calls := st.tool_calls ++
             [{ tool := nmJ, args := s, success := false, timestamp := env.utcNow w }] }, w, none) := by
  unfold execOneCall executeToolCall
  simp only [Json.getKey, List.lookup, hload, String.reduceBEq, String.reduceEq]
  rfl

/-- Claim C5: a tool call whose argument text is not valid JSON is
recovered locally: _execute_tool_call returns a failed ToolResult with
the literal error text (no raise), the appended tool-role message
carries exactly that text, and when the step budget allows it the loop
proceeds to step 2 rather than aborting the run. -/
theorem claim_C5_invalid_json_recovery {σ : Type} (env : Env σ) (maxSteps : Nat)
    (sp q rid : String) (w w1 : σ) (resp1 : ModelResponse) (idJ nmJ : Json) (s : String)
    (tc : Json)
    (htcdef : tc = Json.obj [("id", idJ), ("function", Json.obj [("name", nmJ), ("arguments", Json.str s)])])
    (hms : 2 ≤ maxSteps)
    (hload : env.loads s = none)
    (hcb : env.onStep = none)
    (hp : env.provider w = (.ok resp1, w1))
    (htc : resp1.message.tool_calls = some [tc])
    (fin : AgentState) (hfin : fin = (ReActAgent.run env maxSteps sp q (AgentState.init rid) w).1) :
    executeToolCall env.loads env.toolset tc w =
      (.ok { success := false, output := none,
             error := some ("Invalid JSON in tool arguments: " ++ s) }, w) ∧
    (∀ (st2 : AgentState) (w2 : σ), execToolCalls env [tc] st2 w2 =
      ({ st2 with
           messages := st2.messages ++
             [{ role := "tool", content := some ("Invalid JSON in tool arguments: " ++ s),
                tool_call_id := some idJ }],
           tool_calls := st2.tool_calls ++
             [{ tool := nmJ, args := s, success := false, timestamp := env.utcNow w2 }] }, w2, none)) ∧
    2 ≤ fin.step_count := by
  subst htcdef
  have hexec : ∀ (st2 : AgentState) (w2 : σ),
      execToolCalls env
        [Json.obj [("id", idJ), ("function", Json.obj [("name", nmJ), ("arguments", Json.str s)])]]
        st2 w2 =
      ({ st2 with
           messages := st2.messages ++
             [{ role := "tool", content := some ("Invalid JSON in tool arguments: " ++ s),
                tool_call_id := some idJ }],
           tool_calls := st2.tool_calls ++
             [{ tool := nmJ, args := s, success := false, timestamp := env.utcNow w2 }] }, w2, none) := by
    intro st2 w2
    simp only [execToolCalls]
    rw [execOneCall_invalid_json env st2 w2 idJ nmJ s hload]
  refine ⟨?_, hexec, ?_⟩
  · unfold executeToolCall
    simp only [Json.getKey, List.lookup, hload, String.reduceBEq, String.reduceEq]
  · subst hfin
    obtain ⟨k, rfl⟩ : ∃ k, maxSteps = (k + 1) + 1 := ⟨maxSteps - 2, by omega⟩
    have hfields := run_loop_fields env (k + 1 + 1) sp q rid w
    rw [hfields.1]
    set seeded := ((AgentState.init rid).addMessage
      { role := "system", content := some sp }).addMessage { role := "user", content := some q }
      with hseed
    rw [runIter_first_step env (k + 1) seeded w rfl rfl]
    rw [stepBody_provider_ok env (k + 1 + 1) seeded w w1 resp1 hp]
    set stStep := { seeded with
        step_count := seeded.step_count + 1,
        current_phase := determinePhase (k + 1 + 1)
          ({ seeded with step_count := seeded.step_count + 1 } : AgentState) }
      with hstStep
    have htcb : resp1.hasToolCalls = true := by
      unfold ModelResponse.hasToolCalls
      rw [htc]
    obtain ⟨p, q2, r, hU⟩ := updateUsage_ex resp1.usage stStep
    have hsa : ∃ stX : AgentState, stepAfter env resp1 stStep w1 = (stX, w1, false) ∧
        stX.step_count = stStep.step_count ∧ stX.is_complete = stStep.is_complete := by
      unfold stepAfter
      dsimp only
      rw [hU]
      simp only [htcb, if_true, htc, Option.getD_some]
      rw [hexec]
      dsimp only
      rw [hcb]
      exact ⟨_, rfl, rfl, rfl⟩
    obtain ⟨stX, hsa2, hsc, hic⟩ := hsa
    rw [hsa2]
    dsimp only
    have hsc1 : stX.step_count = 1 := hsc
    have hic1 : stX.is_complete = false := hic
    have hmono := runIter_step_mono env (k + 1 + 1)
    simp only [runIter]
    rw [if_pos ⟨by omega, hic1⟩]
    split
    · rename_i st3 w3 hsb
      have hc := stepBody_core_eq _ _ _ _ _ _ _ hsb
      dsimp only
      omega
    · rename_i st3 w3 hsb
      have hc := stepBody_core_eq _ _ _ _ _ _ _ hsb
      have := hmono k st3 w3
      omega

def c5Tc : Json :=
  .obj [("id", .str "1"), ("function", .obj [("name", .str "t"), ("arguments", .str "not json")])]

def c5Resp : ModelResponse :=
  { message := { role := "assistant", content := none, tool_calls := some [c5Tc] }
    finish_reason := "tool_calls" }

def c5Env : Env Unit :=
  { loads := fun _ => none
    dumps := fun _ => "null"
    provider := fun w => (.ok c5Resp, w)
    toolset := unitToolSet
    onStep := none
    utcNow := fun _ => "ts" }

theorem claim_C5_witness :
    executeToolCall c5Env.loads c5Env.toolset c5Tc () =
      (.ok { success := false, output := none,
             error := some ("Invalid JSON in tool arguments: " ++ "not json") }, ()) ∧
    (∀ (st2 : AgentState) (w2 : Unit), execToolCalls c5Env [c5Tc] st2 w2 =
      ({ st2 with
           messages := st2.messages ++
             [{ role := "tool", content := some ("Invalid JSON in tool arguments: " ++ "not json"),
                tool_call_id := some (.str "1") }],
           tool_calls := st2.tool_calls ++
             [{ tool := .str "t", args := "not json", success := false,
                timestamp := c5Env.utcNow w2 }] }, w2, none)) ∧
    2 ≤ (ReActAgent.run c5Env 2 "s" "q" (AgentState.init "r") ()).1.step_count :=
  claim_C5_invalid_json_recovery c5Env 2 "s" "q" "r" () () c5Resp (.str "1") (.str "t")
    "not json" c5Tc rfl (by decide) rfl rfl rfl rfl _ rfl

/-- A raw tool-call dict of one of the malformed shapes named by the
spec: no "function" entry, no "arguments" entry under it, or an
arguments value that is not a string. -/
def tcMalformed (tc : Json) : Prop :=
  (∃ e, tc.getKey "function" = .error e) ∨
  (∃ func e, tc.getKey "function" = .ok func ∧ func.getKey "arguments" = .error e) ∨
  (∃ func argsJson, tc.getKey "function" = .ok func ∧ func.getKey "arguments" = .ok argsJson ∧
    ∀ s, argsJson ≠ .str s)

theorem executeToolCall_malformed {σ : Type} (loads : String → Option Json) (ts : ToolSetM σ)
    (tc : Json) (hmal : tcMalformed tc) :
    ∃ e : PyErr, ∀ w0 : σ, executeToolCall loads ts tc w0 = (.error e, w0) := by
  rcases hmal with ⟨e, hf⟩ | ⟨func, e, hf, ha⟩ | ⟨func, argsJson, hf, ha, hns⟩
  · exact ⟨e, fun w0 => by simp only [executeToolCall, hf]⟩
  · rcases hn : func.getKey "name" with e2 | nm
    · exact ⟨e2, fun w0 => by simp only [executeToolCall, hf, hn]⟩
    · exact ⟨e, fun w0 => by simp only [executeToolCall, hf, hn, ha]⟩
  · rcases hn : func.getKey "name" with e2 | nm
    · exact ⟨e2, fun w0 => by simp only [executeToolCall, hf, hn]⟩
    · refine ⟨.typeError "the JSON object must be str, bytes or bytearray", fun w0 => ?_⟩
      simp only [executeToolCall, hf, hn, ha]

/-- Claim C9: when the first model response carries a tool call of a
malformed shape (missing "function", missing "arguments", or a
non-string arguments value), _execute_tool_call raises an exception
that is not caught locally: it escapes to the loop-level handler,
str(e) is recorded as the terminal error, and the run stops after that
step without completing. -/
theorem claim_C9_malformed_call_aborts {σ : Type} (env : Env σ) (maxSteps : Nat)
    (sp q rid : String) (w w1 : σ) (resp1 : ModelResponse) (tc : Json)
    (hms : 1 ≤ maxSteps)
    (hp : env.provider w = (.ok resp1, w1))
    (htc : resp1.message.tool_calls = some [tc])
    (hmal : tcMalformed tc)
    (fin : AgentState) (hfin : fin = (ReActAgent.run env maxSteps sp q (AgentState.init rid) w).1) :
    ∃ e : PyErr,
      (∀ w0 : σ, executeToolCall env.loads env.toolset tc w0 = (.error e, w0)) ∧
      fin.error = some e.toStr ∧
      fin.step_count = 1 ∧
      fin.is_complete = false := by
  obtain ⟨e, he⟩ := executeToolCall_malformed env.loads env.toolset tc hmal
  refine ⟨e, he, ?_⟩
  subst hfin
  obtain ⟨k, rfl⟩ : ∃ k, maxSteps = k + 1 := ⟨maxSteps - 1, by omega⟩
  have hfields := run_loop_fields env (k + 1) sp q rid w
  rw [hfields.1, hfields.2.1, hfields.2.2]
  set seeded := ((AgentState.init rid).addMessage
    { role := "system", content := some sp }).addMessage { role := "user", content := some q }
    with hseed
  rw [runIter_first_step env k seeded w rfl rfl]
  rw [stepBody_provider_ok env (k + 1) seeded w w1 resp1 hp]
  set stStep := { seeded with
      step_count := seeded.step_count + 1,
      current_phase := determinePhase (k + 1)
        ({ seeded with step_count := seeded.step_count + 1 } : AgentState) }
    with hstStep
  have htcb : resp1.hasToolCalls = true := by
    unfold ModelResponse.hasToolCalls
    rw [htc]
  obtain ⟨p, q2, r, hU⟩ := updateUsage_ex resp1.usage stStep
  have hsa : ∃ stX : AgentState, stepAfter env resp1 stStep w1 = (stX, w1, true) ∧
      stX.step_count = stStep.step_count ∧ stX.is_complete = stStep.is_complete ∧
      stX.error = some e.toStr := by
    unfold stepAfter
    dsimp only
    rw [hU]
    simp only [htcb, if_true, htc, Option.getD_some]
    simp only [execToolCalls]
    unfold execOneCall
    rw [he w1]
    exact ⟨_, rfl, rfl, rfl, rfl⟩
  obtain ⟨stX, hsa2, hsc, hic2, herr⟩ := hsa
  rw [hsa2]
  dsimp only
  have hsc1 : stX.step_count = 1 := hsc
  have hic1 : stX.is_complete = false := hic2
  exact ⟨herr, hsc1, hic1⟩

def c9Tc : Json := .obj [("id", .str "1")]

def c9Resp : ModelResponse :=
  { message := { role := "assistant", content := none, tool_calls := some [c9Tc] }
    finish_reason := "tool_calls" }

def c9Env : Env Unit :=
  { loads := fun _ => none
    dumps := fun _ => "null"
    provider := fun w => (.ok c9Resp, w)
    toolset := unitToolSet
    onStep := none
    utcNow := fun _ => "ts" }

theorem claim_C9_witness :
    ∃ e : PyErr,
      (∀ w0 : Unit, executeToolCall c9Env.loads c9Env.toolset c9Tc w0 = (.error e, w0)) ∧
      (ReActAgent.run c9Env 1 "s" "q" (AgentState.init "r") ()).1.error = some e.toStr ∧
      (ReActAgent.run c9Env 1 "s" "q" (AgentState.init "r") ()).1.step_count = 1 ∧
      (ReActAgent.run c9Env 1 "s" "q" (AgentState.init "r") ()).1.is_complete = false :=
  claim_C9_malformed_call_aborts c9Env 1 "s" "q" "r" () () c9Resp c9Tc (by decide) rfl rfl
    (Or.inl ⟨.keyError "function", rfl⟩) _ rfl
